import Mathlib

/-!
Shallow embedding of `src/collectra_gui/lineage_display.py` (the core of the
`collectra_gui` repository): the typed node model, the `CollectraGraph` store
built on a `networkx.DiGraph`, the type-filtered DFS traversal, the display
resolver `compute_display_value`, and the YAML round-trip serializer
(`from_yaml_data` / `to_yaml_data`).

Modelling decisions, all taken from the source:
* Python dicts that the code iterates in insertion order become ordered
  association lists.  A `networkx` node carries an optional `node` attribute:
  nodes created only as edge endpoints ("phantom" parents) have no payload,
  which we model as `Option CollectraNode`.
* `networkx.DiGraph.add_node` on an existing id updates the attribute in
  place (keeping the node's position); `add_edge` inserts missing endpoints
  as attribute-less nodes and is idempotent on the edge itself;
  `successors` / `predecessors` raise `NetworkXError` on an id that is not a
  node.  Those behaviours are reproduced exactly.
* Python exceptions become the `Err` sum: pydantic `ValidationError`,
  `KeyError` from `data["x_center"]`-style access, `ValueError` raised by the
  methods themselves, and `NetworkXError`.
* Crop coordinates are never computed with, only stored and compared, so they
  are embedded as `Int` (opaque numerals).
* The fresh id `f"user_text_{uuid.uuid4().hex[:8]}"` drawn inside `set_data`
  is modelled by an explicit `fresh` argument carrying the hex suffix.
-/

/-- Python exceptions that the translated code can raise. -/
inductive Err where
  | validationError (msg : String)
  | keyError (msg : String)
  | valueError (msg : String)
  | networkxError (msg : String)

deriving DecidableEq, Repr

/-- Does the first list start the second?  (Helper for the substring test.) -/
def charsStartWith : List Char → List Char → Bool
  | [], _ => true
  | _ :: _, [] => false
  | a :: as, b :: bs => a == b && charsStartWith as bs

/-- Does the first list occur as a contiguous run inside the second? -/
def charsHaveInfix (needle : List Char) : List Char → Bool
  | [] => needle.isEmpty
  | b :: bs => charsStartWith needle (b :: bs) || charsHaveInfix needle bs

/-- Python's substring test `needle in hay` (`str.__contains__`): the empty
needle is contained in every string, a non-empty needle must occur as a
contiguous substring. -/
def strContains (hay needle : String) : Bool :=
  charsHaveInfix needle.data hay.data

/-- `utils.normalise_items` as applied to the `parents` field: Python allows
the field to be absent, `None`, a single id, or a list of ids. -/
inductive ParentsField where
  | single (s : String)
  | listOf (l : List String)

deriving DecidableEq, Repr

/-- `normalise_items(data.get("parents", []))`: absence and `None` both give
`[]`, a single id gives a one-element list, a list is returned as is. -/
def normalise_items : Option ParentsField → List String
  | none => []
  | some (.single s) => [s]
  | some (.listOf l) => l

/-- `CollectraCropRegion`: the four mandatory crop fields. -/
structure CollectraCropRegion where
  x_center : Int
  y_center : Int
  width_relative : Int
  height_relative : Int

deriving DecidableEq, Repr

/-- `CollectraNode` / `CollectraAnnotationNode`.  The source distinguishes the
annotation subclass by carrying a `crop_region`; we fold both classes into one
record where `crop? = some _` exactly when the factory built the subclass. -/
structure CollectraNode where
  id : String
  type : String
  data : String := ""
  label : String := ""
  parents : List String := []
  crop? : Option CollectraCropRegion := none

deriving DecidableEq, Repr

/-- The graph-level `Metadata` pydantic model with its field defaults. -/
structure Metadata where
  key : String := "collectra_results_metadata"
  version : String := "1.0.0"
  workflow : String := "collectra_gui"
  timestamp : String := ""

deriving DecidableEq, Repr

instance : Inhabited Metadata := ⟨{}⟩

/-- `NodeDisplayValue` with the pydantic field defaults. -/
structure NodeDisplayValue where
  reason : String
  value : Option String := none
  source_id : Option String := none
  crop_region : Option CollectraCropRegion := none
  locked : Bool := false

deriving DecidableEq, Repr

/-- The untyped field bag handed to `CollectraNodeFactory.create_node` /
`CollectraGraph.add_node` (a Python dict; absent keys are `none`). -/
structure FieldBag where
  idKey : Option String := none
  typeKey : Option String := none
  dataKey : Option String := none
  labelKey : Option String := none
  parentsKey : Option ParentsField := none
  xCenterKey : Option Int := none
  yCenterKey : Option Int := none
  widthKey : Option Int := none
  heightKey : Option Int := none

deriving DecidableEq, Repr

/-- `CollectraNodeFactory.create_node(data)` where `ps` is the already
normalised `parents` list that `add_node` wrote back into the dict.
`data["x_center"]`-style access raises `KeyError`; pydantic construction
raises `ValidationError` when `id` (or, in the generic branch, `type`) is
missing.  Extra dict keys are ignored by pydantic. -/
def create_node (bag : FieldBag) (ps : List String) : Except Err CollectraNode :=
  if strContains (bag.typeKey.getD "") "ImageCrop" then
    match bag.xCenterKey with
    | none => .error (.keyError "x_center")
    | some x =>
      match bag.yCenterKey with
      | none => .error (.keyError "y_center")
      | some y =>
        match bag.widthKey with
        | none => .error (.keyError "width_relative")
        | some w =>
          match bag.heightKey with
          | none => .error (.keyError "height_relative")
          | some h =>
            match bag.idKey with
            | none => .error (.validationError "id: Field required")
            | some i =>
              .ok { id := i, type := bag.typeKey.getD "", data := bag.dataKey.getD "",
                    label := bag.labelKey.getD "", parents := ps,
                    crop? := some ⟨x, y, w, h⟩ }
  else
    match bag.idKey, bag.typeKey with
    | some i, some t =>
      .ok { id := i, type := t, data := bag.dataKey.getD "",
            label := bag.labelKey.getD "", parents := ps, crop? := none }
    | _, _ => .error (.validationError "id/type: Field required")

/-- `CollectraGraph`: the `networkx.DiGraph` plus metadata.  `nodes` is the
ordered node dict (`none` payload = node created only as an edge endpoint);
`edges` is the ordered, duplicate-free edge relation.  The unused cached
adjacency indexes of the dataclass are omitted (never read or written). -/
structure CollectraGraph where
  nodes : List (String × Option CollectraNode) := []
  edges : List (String × String) := []
  metadata : Metadata := {}

deriving DecidableEq, Repr

namespace CollectraGraph

/-- The node ids of the graph, in `networkx` insertion order
(`list(self._graph.nodes)`). -/
def nodeKeys (g : CollectraGraph) : List String := g.nodes.map Prod.fst

/-- `self._graph.nodes.get(node_id, {}).get("node", None)`
(= `CollectraGraph._get_node`). -/
def payloadOf (g : CollectraGraph) (i : String) : Option CollectraNode :=
  match g.nodes.find? (fun p => p.1 = i) with
  | some p => p.2
  | none => none

/-- The payload-bearing nodes in node order (phantom parents skipped). -/
def realNodes (g : CollectraGraph) : List CollectraNode :=
  g.nodes.filterMap Prod.snd

/-- Ids of the payload-bearing nodes. -/
def realIds (g : CollectraGraph) : List String :=
  (g.realNodes).map CollectraNode.id

/-- `networkx.DiGraph.add_node(id, node=n)`: update the attribute in place if
the id is already a node (keeping its position), else append. -/
def nxAddNode (g : CollectraGraph) (i : String) (n : CollectraNode) : CollectraGraph :=
  { g with nodes :=
      if i ∈ g.nodeKeys then
        g.nodes.map (fun p => if p.1 = i then (p.1, some n) else p)
      else g.nodes ++ [(i, some n)] }

/-- Insert an attribute-less node if the id is unknown (what `add_edge` does
to a missing endpoint). -/
def ensureNode (nodes : List (String × Option CollectraNode)) (i : String) :
    List (String × Option CollectraNode) :=
  if i ∈ nodes.map Prod.fst then nodes else nodes ++ [(i, none)]

/-- `networkx.DiGraph.add_edge(u, v)`. -/
def nxAddEdge (g : CollectraGraph) (u v : String) : CollectraGraph :=
  { g with nodes := ensureNode (ensureNode g.nodes u) v,
           edges := if (u, v) ∈ g.edges then g.edges else g.edges ++ [(u, v)] }

/-- `CollectraGraph.add_node(data)`: normalise `parents`, build the node via
the factory, insert it, then insert one edge per parent. -/
def add_node (g : CollectraGraph) (bag : FieldBag) : Except Err CollectraGraph :=
  match create_node bag (normalise_items bag.parentsKey) with
  | .error e => .error e
  | .ok n =>
    .ok ((normalise_items bag.parentsKey).foldl
      (fun gg p => nxAddEdge gg p n.id) (nxAddNode g n.id n))

/-- Successors of `u` in edge-insertion order (the `networkx` adjacency dict
restricted to source `u`). -/
def successorsList (g : CollectraGraph) (u : String) : List String :=
  (g.edges.filter (fun e => e.1 = u)).map Prod.snd

/-- Predecessors of `v` in edge-insertion order. -/
def predecessorsList (g : CollectraGraph) (v : String) : List String :=
  (g.edges.filter (fun e => e.2 = v)).map Prod.fst

/-- `CollectraGraph.children`: `list(self._graph.successors(node_id))`;
`networkx` raises `NetworkXError` when the id is not a node. -/
def children (g : CollectraGraph) (i : String) : Except Err (List String) :=
  if i ∈ g.nodeKeys then .ok (g.successorsList i)
  else .error (.networkxError ("The node " ++ i ++ " is not in the digraph."))

/-- `CollectraGraph.parents`. -/
def parentsQ (g : CollectraGraph) (i : String) : Except Err (List String) :=
  if i ∈ g.nodeKeys then .ok (g.predecessorsList i)
  else .error (.networkxError ("The node " ++ i ++ " is not in the digraph."))

/-- `CollectraGraph.get_type`. -/
def get_type (g : CollectraGraph) (i : String) : String :=
  match g.payloadOf i with
  | some n => n.type
  | none => ""

/-- `CollectraGraph.get_data`. -/
def get_data (g : CollectraGraph) (i : String) : String :=
  match g.payloadOf i with
  | some n => n.data
  | none => ""

/-- `CollectraGraph.get_crop_region`: `ValueError` unless the stored node is a
`CollectraAnnotationNode` (which in this embedding means `crop? = some _`). -/
def get_crop_region (g : CollectraGraph) (i : String) : Except Err CollectraCropRegion :=
  match (g.payloadOf i).bind CollectraNode.crop? with
  | some c => .ok c
  | none => .error (.valueError ("Node " ++ i ++ " is not an annotation node."))

/-- `CollectraGraph.set_data(node_id, data, crop_id)`.  A truthy (non-empty)
id must name an existing node, whose `data` is mutated in place; a falsy id
with a falsy `crop_id` raises; a falsy id with a truthy `crop_id` materialises
a brand-new Text node via `add_node`, whose generated id is
`"user_text_" ++ fresh` (`fresh` models the uuid hex suffix). -/
def set_data (g : CollectraGraph) (i : String) (d : String)
    (cropId : Option String) (fresh : String) : Except Err CollectraGraph :=
  if i ≠ "" then
    match g.payloadOf i with
    | none => .error (.valueError ("Node " ++ i ++ " not found in graph."))
    | some _ =>
      .ok { g with nodes :=
        g.nodes.map (fun p =>
          if p.1 = i then (p.1, p.2.map (fun m => { m with data := d })) else p) }
  else
    match cropId with
    | none => .error (.valueError ("Node " ++ i ++ " not found and crop_id not provided."))
    | some cid =>
      if cid = "" then
        .error (.valueError ("Node " ++ i ++ " not found and crop_id not provided."))
      else
        g.add_node { idKey := some ("user_text_" ++ fresh),
                     typeKey := some "collectra.Text",
                     dataKey := some d,
                     labelKey := some "user_annotation_text",
                     parentsKey := some (.single cid) }

/-- The dict argument of `set_crop_region` (a region field bag). -/
structure RegionBag where
  xCenterKey : Option Int := none
  yCenterKey : Option Int := none
  widthKey : Option Int := none
  heightKey : Option Int := none

deriving DecidableEq, Repr

/-- `CollectraGraph.set_crop_region`: looks the node up (cannot fail), then
validates the region via pydantic (`ValidationError` on any missing field),
then raises `ValueError "... is not an annotation node."` when the looked-up
value is `None` or not an annotation node, and only then assigns. -/
def set_crop_region (g : CollectraGraph) (i : String) (r : RegionBag) :
    Except Err CollectraGraph :=
  let nd := g.payloadOf i
  match r.xCenterKey, r.yCenterKey, r.widthKey, r.heightKey with
  | some x, some y, some w, some h =>
    match nd with
    | some n =>
      if n.crop?.isSome then
        .ok { g with nodes :=
          g.nodes.map (fun p =>
            if p.1 = i then (p.1, p.2.map (fun m => { m with crop? := some ⟨x, y, w, h⟩ }))
            else p) }
      else .error (.valueError ("Node " ++ i ++ " is not an annotation node."))
    | none => .error (.valueError ("Node " ++ i ++ " is not an annotation node."))
  | _, _, _, _ => .error (.validationError "crop region: Field required")

/-- `CollectraGraph.children_of_type`: children whose type contains the
substring. -/
def children_of_type (g : CollectraGraph) (i : String) (sub : String) :
    Except Err (List String) :=
  match g.children i with
  | .error e => .error e
  | .ok cs => .ok (cs.filter (fun c => strContains (g.get_type c) sub))

/-- The `while stack:` loop of `CollectraGraph.dfs_leaves`, with the loop
state (`stack`, `visited`, `leaves`) made explicit.  Our list-stack keeps the
top at the head, so Python's `stack.extend(typed_children)` followed by
popping from the end becomes pushing `tc.reverse` on the front.  The final
`visited` set is returned alongside `leaves` so that invariants about it can
be stated; `dfs_leaves` projects it away. -/
def dfsAux (g : CollectraGraph) (f : String) :
    List String → List String → List String → Except Err (List String × List String)
  | [], visited, leaves => .ok (leaves, visited)
  | n :: rest, visited, leaves =>
    if hnv : n ∈ visited then dfsAux g f rest visited leaves
    else
      match h : g.children_of_type n f with
      | .error e => .error e
      | .ok tc =>
        if tc.isEmpty then dfsAux g f rest (n :: visited) (leaves ++ [n])
        else dfsAux g f (tc.reverse ++ rest) (n :: visited) leaves
termination_by stack visited _ =>
  ((g.nodeKeys.filter (fun x => decide (x ∉ visited))).length, stack.length)
decreasing_by
  · apply Prod.Lex.right
    simp only [List.length_cons]
    omega
  all_goals {
    apply Prod.Lex.left
    have hmem : n ∈ g.nodeKeys := by
      unfold children_of_type children at h
      by_cases hc : n ∈ g.nodeKeys
      · exact hc
      · simp [hc] at h
    have hmono : ∀ (l : List String) (p q : String → Bool),
        (∀ x, q x = true → p x = true) →
        (l.filter q).length ≤ (l.filter p).length := by
      intro l p q himp
      induction l with
      | nil => simp
      | cons b bs ih =>
        by_cases hq : q b = true
        · simp [List.filter_cons, hq, himp b hq]
          omega
        · simp only [Bool.not_eq_true] at hq
          by_cases hp : p b = true
          · simp [List.filter_cons, hq, hp]
            omega
          · simp only [Bool.not_eq_true] at hp
            simp [List.filter_cons, hq, hp, ih]
    have hstrict : ∀ (l : List String) (p q : String → Bool),
        (∀ x, q x = true → p x = true) → ∀ a, a ∈ l → p a = true → q a = false →
        (l.filter q).length < (l.filter p).length := by
      intro l p q himp a ha hpa hqa
      induction l with
      | nil => cases ha
      | cons b bs ih =>
        rcases List.mem_cons.mp ha with hb | hb
        · subst hb
          simp [List.filter_cons, hpa, hqa]
          exact Nat.lt_succ_of_le (hmono bs p q himp)
        · by_cases hq : q b = true
          · simp [List.filter_cons, hq, himp b hq]
            exact ih hb
          · simp only [Bool.not_eq_true] at hq
            by_cases hp : p b = true
            · simp [List.filter_cons, hq, hp]
              exact Nat.lt_succ_of_lt (ih hb)
            · simp only [Bool.not_eq_true] at hp
              simp [List.filter_cons, hq, hp]
              exact ih hb
    refine hstrict _ _ _ ?_ n hmem ?_ ?_
    · intro x hx
      simp only [decide_eq_true_eq] at hx ⊢
      exact fun hm => hx (List.mem_cons_of_mem _ hm)
    · simp only [decide_eq_true_eq]
      exact hnv
    · simp
  }

/-- `CollectraGraph.dfs_leaves(start, type_filter)`. -/
def dfs_leaves (g : CollectraGraph) (start f : String) : Except Err (List String) :=
  (dfsAux g f [start] [] []).map Prod.fst

/-- `CollectraGraph.find_deepest(start, type_filter)`:
`leaves[0] if leaves else ""`. -/
def find_deepest (g : CollectraGraph) (start f : String) : Except Err String :=
  (g.dfs_leaves start f).map (fun l => l.headD "")

/-- `CollectraGraph.compute_display_value(node_id)`. -/
def compute_display_value (g : CollectraGraph) (i : String) :
    Except Err NodeDisplayValue :=
  match g.payloadOf i with
  | none => .ok { reason := i ++ " Element not found" }
  | some _ =>
    let node_type := g.get_type i
    if strContains node_type "Image" && !strContains node_type "ImageCrop" then
      .ok { reason := i ++ " is of collectra.Image type: display blank", locked := true }
    else if strContains node_type "ImageCrop" then
      match g.get_crop_region i with
      | .error e => .error e
      | .ok crop_data =>
        match g.children_of_type i "ImageCrop" with
        | .error e => .error e
        | .ok icChildren =>
          if !icChildren.isEmpty then
            .ok { crop_region := some crop_data,
                  reason := i ++ " is a container crop: display blank",
                  locked := true }
          else
            match g.children_of_type i "Text" with
            | .error e => .error e
            | .ok tcs =>
              let first := tcs.headD ""
              if first ≠ "" then
                match g.find_deepest first "Text" with
                | .error e => .error e
                | .ok deepest_id =>
                  if deepest_id = "" then
                    .error (.valueError ("Expected to find deepest Text child for node "
                      ++ i ++ ", but none found."))
                  else
                    let deepest_data := if deepest_id ≠ "" then g.get_data deepest_id else ""
                    .ok { value := some deepest_data,
                          source_id := some deepest_id,
                          crop_region := some crop_data,
                          reason := "Leaf crop " ++ i ++ " with Text child: deepest Text is "
                            ++ deepest_id }
              else
                .ok { value := some "",
                      source_id := some "",
                      crop_region := some crop_data,
                      reason := "Leaf crop " ++ i ++ " without Text child" }
    else if strContains node_type "Text" then
      .ok { value := some (g.get_data i), source_id := some i,
            reason := "Text element: display data" }
    else
      .ok { value := some "", source_id := some "", reason := "Unknown type" }

/-- State-threaded wrapper for `compute_display_value`.  The Python method
only performs reads — `_get_node`, `get_type`, `get_crop_region`,
`children_of_type`, `find_deepest`, `get_data` — and no branch assigns to the
graph or to any stored node, so threading the graph through the call returns
it unchanged alongside the result. -/
def compute_display_valueSt (g : CollectraGraph) (i : String) :
    CollectraGraph × Except Err NodeDisplayValue :=
  (g, g.compute_display_value i)

end CollectraGraph

/-- `CollectraNode.model_dump` collapses a one-element `parents` list to the
bare id; this sum mirrors the two possible dumped shapes. -/
inductive DumpedParents where
  | one (p : String)
  | many (l : List String)

deriving DecidableEq, Repr

/-- A dumped node dict: `model_dump` drops `label`, collapses `parents`, and
(for annotation nodes) splices the four crop fields back in — kept here as
`crop?`. -/
structure DumpedNode where
  id : String
  type : String
  data : String
  parents : DumpedParents
  crop? : Option CollectraCropRegion

deriving DecidableEq, Repr

/-- `CollectraNode.model_dump` / `CollectraAnnotationNode.model_dump`. -/
def nodeDump (n : CollectraNode) : DumpedNode :=
  { id := n.id, type := n.type, data := n.data,
    parents := match n.parents with
      | [p] => .one p
      | l => .many l,
    crop? := n.crop? }

/-- `Metadata.model_dump`: pops the (always-present) `key` field. -/
structure MetadataDump where
  version : String
  workflow : String
  timestamp : String

deriving DecidableEq, Repr

/-- `Metadata.model_dump`. -/
def metadataDump (m : Metadata) : MetadataDump :=
  { version := m.version, workflow := m.workflow, timestamp := m.timestamp }

/-- A label group in the serialized output: a single-node group collapses to
a bare object, any other group stays a list. -/
inductive ExportGroup where
  | one (d : DumpedNode)
  | many (ds : List DumpedNode)

deriving DecidableEq, Repr

/-- The document produced by `to_yaml_data`: the metadata record under the
metadata key, then the label-grouped node dicts. -/
structure ExportDoc where
  metaKey : String
  metaVal : MetadataDump
  groups : List (String × ExportGroup)

deriving DecidableEq, Repr

/-- `yaml_data.setdefault(label, []).append(node_data)` over an ordered dict
of lists. -/
def groupInsert (acc : List (String × List DumpedNode)) (e : String × DumpedNode) :
    List (String × List DumpedNode) :=
  if e.1 ∈ acc.map Prod.fst then
    acc.map (fun q => if q.1 = e.1 then (q.1, q.2 ++ [e.2]) else q)
  else acc ++ [(e.1, [e.2])]

namespace CollectraGraph

/-- `CollectraGraph.to_yaml_data`: dump every payload-bearing node in node
order (phantoms skipped), group by label, re-attach metadata under its key,
and collapse one-element groups. -/
def to_yaml_data (g : CollectraGraph) : ExportDoc :=
  let dumped : List (String × DumpedNode) :=
    g.nodes.filterMap (fun p => p.2.map (fun n => (n.label, nodeDump n)))
  let grouped := dumped.foldl groupInsert []
  { metaKey := g.metadata.key,
    metaVal := metadataDump g.metadata,
    groups := grouped.map (fun p =>
      match p.2 with
      | [d] => (p.1, .one d)
      | l => (p.1, .many l)) }

end CollectraGraph

/-- The metadata value found under `"collectra_results_metadata"` in an input
document (a dict; pydantic ignores extra keys and fills defaults). -/
structure MetadataBag where
  keyKey : Option String := none
  versionKey : Option String := none
  workflowKey : Option String := none
  timestampKey : Option String := none

deriving DecidableEq, Repr

/-- `Metadata(**metadata)`. -/
def metadataOf (m : MetadataBag) : Metadata :=
  { key := m.keyKey.getD "collectra_results_metadata",
    version := m.versionKey.getD "1.0.0",
    workflow := m.workflowKey.getD "collectra_gui",
    timestamp := m.timestampKey.getD "" }

/-- A label's value in an import document: either a single node dict or a
list of node dicts (`normalise_items` turns the former into a one-element
list).  Non-dict list entries are skipped by `from_yaml_data` and are outside
the scope of the round-trip claims, so they are not represented. -/
inductive ImportGroup where
  | one (b : FieldBag)
  | many (bs : List FieldBag)

deriving DecidableEq, Repr

/-- `normalise_items(value)` for a label's value. -/
def ImportGroup.items : ImportGroup → List FieldBag
  | .one b => [b]
  | .many bs => bs

/-- An import document: the insertion-ordered label groups (the key
`"collectra_results_metadata"` having been popped off into `metaEntry`; `none`
models both an absent key and an empty — falsy — metadata dict). -/
structure ImportDoc where
  groups : List (String × ImportGroup)
  metaEntry : Option MetadataBag := none

deriving DecidableEq, Repr

/-- The `(label, item)` pairs that `from_yaml_data` actually feeds to
`add_node`: items flattened per label, keeping only dicts carrying an
`"id"` key. -/
def flattenDoc (doc : ImportDoc) : List (String × FieldBag) :=
  doc.groups.flatMap (fun p =>
    (p.2.items).filterMap (fun b =>
      if b.idKey.isSome then some (p.1, b) else none))

namespace CollectraGraph

/-- `CollectraGraph.from_yaml_data(data)`: pop the metadata, then, per label
and per id-bearing item, write the label into the item and `add_node` it.
Any exception raised by `add_node` propagates. -/
def from_yaml_data (doc : ImportDoc) : Except Err CollectraGraph :=
  let g0 : CollectraGraph :=
    { metadata := match doc.metaEntry with
        | some m => metadataOf m
        | none => {} }
  (flattenDoc doc).foldlM
    (fun g lb => g.add_node { lb.2 with labelKey := some lb.1 }) g0

end CollectraGraph

/-- The `(id, type, data, parents)` tuple of an id-bearing import item, with
`parents` in normalised-list form (grouping/shape normalisation discounted,
as the round-trip law allows). -/
def bagTuple (b : FieldBag) : String × String × String × List String :=
  (b.idKey.getD "", b.typeKey.getD "", b.dataKey.getD "", normalise_items b.parentsKey)

/-- The `(id, type, data, parents)` tuples of an import document, one per
id-bearing item. -/
def docTuples (doc : ImportDoc) : List (String × String × String × List String) :=
  (flattenDoc doc).map (fun lb => bagTuple lb.2)

/-- The node ids of an import document, one per id-bearing item. -/
def docIds (doc : ImportDoc) : List String :=
  (flattenDoc doc).map (fun lb => lb.2.idKey.getD "")

/-- The `(id, type, data, parents)` tuple of a dumped node dict, with the
collapsed single-parent shape read back as a one-element list. -/
def dumpTuple (d : DumpedNode) : String × String × String × List String :=
  (d.id, d.type, d.data,
    match d.parents with
    | .one p => [p]
    | .many l => l)

/-- The node tuples of a serialized document, ungrouping the label groups. -/
def exportTuples (e : ExportDoc) : List (String × String × String × List String) :=
  e.groups.flatMap (fun p =>
    match p.2 with
    | .one d => [dumpTuple d]
    | .many ds => ds.map dumpTuple)

/-- The node ids of a serialized document. -/
def exportIds (e : ExportDoc) : List String :=
  (exportTuples e).map (fun t => t.1)

/-- The `(id, type, data, parents)` tuple of a stored node. -/
def nodeTuple (n : CollectraNode) : String × String × String × List String :=
  (n.id, n.type, n.data, n.parents)

namespace CollectraGraph

/-- Structural invariants that `networkx` guarantees by construction: node
keys are unique (a Python dict), every stored payload is stored under its own
id (`add_node(node.id, node=node)`), and both endpoints of every edge are
nodes (`add_edge` inserts missing endpoints). -/
def Wf (g : CollectraGraph) : Prop :=
  g.nodeKeys.Nodup ∧
  (∀ p ∈ g.nodes, (p.2.map CollectraNode.id).getD p.1 = p.1) ∧
  (∀ e ∈ g.edges, e.1 ∈ g.nodeKeys ∧ e.2 ∈ g.nodeKeys)

instance (g : CollectraGraph) : Decidable g.Wf := by
  unfold Wf; infer_instance

/-- Edge endpoints are always nodes (the third `Wf` component alone). -/
def EdgesClosed (g : CollectraGraph) : Prop :=
  ∀ e ∈ g.edges, e.1 ∈ g.nodeKeys ∧ e.2 ∈ g.nodeKeys

instance (g : CollectraGraph) : Decidable g.EdgesClosed := by
  unfold EdgesClosed; infer_instance

end CollectraGraph

/-- Extract the graph from a successful operation (used only to name the
concrete graphs that the counterexamples and witnesses are built from). -/
def getOk (e : Except Err CollectraGraph) : CollectraGraph :=
  match e with
  | .ok g => g
  | .error _ => {}

namespace CollectraGraph

/-- One step of the type-filtered child relation that `dfs_leaves` descends
through: `b` is among the filtered children of `a`. -/
def ChildStep (g : CollectraGraph) (f : String) (a b : String) : Prop :=
  ∃ tc, g.children_of_type a f = .ok tc ∧ b ∈ tc

end CollectraGraph

deriving instance DecidableEq for Except

/-- A duplicate-id import document: two items under one label share id `a`. -/
def c1dupDoc : ImportDoc :=
  { groups := [("L", .many [
      { idKey := some "a", typeKey := some "T", dataKey := some "1" },
      { idKey := some "a", typeKey := some "T", dataKey := some "2" }])] }

/-- The graph built from the duplicate-id document. -/
def c1dupG : CollectraGraph := getOk (CollectraGraph.from_yaml_data c1dupDoc)

/-- A well-formed import document with distinct ids, one single-item group,
one two-item group, both parent spellings, and a metadata record. -/
def c1okDoc : ImportDoc :=
  { groups := [
      ("image", .one { idKey := some "img", typeKey := some "collectra.Image",
                       dataKey := some "x.jpg" }),
      ("crop", .many [
        { idKey := some "c1", typeKey := some "collectra.ImageCrop",
          parentsKey := some (.single "img"), xCenterKey := some 1,
          yCenterKey := some 2, widthKey := some 3, heightKey := some 4 },
        { idKey := some "c2", typeKey := some "collectra.ImageCrop",
          parentsKey := some (.listOf ["img"]), xCenterKey := some 1,
          yCenterKey := some 2, widthKey := some 3, heightKey := some 4 }])],
    metaEntry := some { versionKey := some "2.0" } }

def cropBag (i : String) : FieldBag :=
  { idKey := some i, typeKey := some "collectra.ImageCrop", labelKey := some "crop",
    xCenterKey := some 1, yCenterKey := some 1, widthKey := some 1,
    heightKey := some 1 }

def textBag (i d parent : String) : FieldBag :=
  { idKey := some i, typeKey := some "collectra.Text", dataKey := some d,
    labelKey := some "t", parentsKey := some (.single parent) }

/-- A leaf crop whose only Text child has the empty string as id. -/
def c2badG : CollectraGraph := getOk (do
  let g ← CollectraGraph.add_node {} (cropBag "c")
  let g ← g.add_node (textBag "" "hello" "c")
  pure g)

/-- A leaf crop with a two-step Text correction chain. -/
def c2wG : CollectraGraph := getOk (do
  let g ← CollectraGraph.add_node {} (cropBag "crop")
  let g ← g.add_node (textBag "t1" "first" "crop")
  let g ← g.add_node (textBag "t2" "deepest" "t1")
  pure g)

def cycT1Bag : FieldBag :=
  { idKey := some "t1", typeKey := some "collectra.Text", labelKey := some "t",
    parentsKey := some (.listOf ["c", "t2"]) }

/-- A crop whose Text chain loops: `t1 -> t2 -> t1`. -/
def cycG : CollectraGraph := getOk (do
  let g ← CollectraGraph.add_node {} (cropBag "c")
  let g ← g.add_node cycT1Bag
  let g ← g.add_node (textBag "t2" "" "t1")
  pure g)

def c3bagA : FieldBag :=
  { idKey := some "a", typeKey := some "T", dataKey := some "1", labelKey := some "L" }

def c3bagB : FieldBag :=
  { idKey := some "a", typeKey := some "T", dataKey := some "2", labelKey := some "L" }

/-- A one-node graph holding node `a` with data `1`. -/
def c3g1 : CollectraGraph := getOk (CollectraGraph.add_node {} c3bagA)

/-- A one-node graph holding a single annotation (crop-bearing) node. -/
def c5g : CollectraGraph := getOk (CollectraGraph.add_node {}
  { idKey := some "crop1", typeKey := some "collectra.ImageCrop",
    labelKey := some "crop", xCenterKey := some 1, yCenterKey := some 2,
    widthKey := some 3, heightKey := some 4 })

/-- A field bag whose single parent id `P` is never added as a node. -/
def c10bag : FieldBag :=
  { idKey := some "kid", typeKey := some "T", labelKey := some "L",
    parentsKey := some (.single "P") }

/-- The node that re-adding `a` stores. -/
def c3nodeB : CollectraNode :=
  { id := "a", type := "T", data := "2", label := "L", parents := [] }

/-- The Text node that `set_data` materialises for a falsy id. -/
def c4genNode : CollectraNode :=
  { id := "user_text_abcd1234", type := "collectra.Text", data := "hello",
    label := "user_annotation_text", parents := ["crop_7"] }

/-- Counting helper: a filter by a pointwise-stronger predicate keeps at most
as many elements. -/
theorem length_filter_le_of_imp (l : List String) (p q : String → Bool)
    (h : ∀ x, q x = true → p x = true) :
    (l.filter q).length ≤ (l.filter p).length := by
  induction l with
  | nil => simp
  | cons b bs ih =>
    by_cases hq : q b = true
    · simp [List.filter_cons, hq, h b hq]
      omega
    · simp only [Bool.not_eq_true] at hq
      by_cases hp : p b = true
      · simp [List.filter_cons, hq, hp]
        omega
      · simp only [Bool.not_eq_true] at hp
        simp [List.filter_cons, hq, hp, ih]

/-- Counting helper: a strictly stronger filter that loses a definite element
of the list keeps strictly fewer elements. -/
theorem length_filter_lt_of_mem (l : List String) (p q : String → Bool)
    (h : ∀ x, q x = true → p x = true) (a : String) (ha : a ∈ l)
    (hpa : p a = true) (hqa : q a = false) :
    (l.filter q).length < (l.filter p).length := by
  induction l with
  | nil => cases ha
  | cons b bs ih =>
    rcases List.mem_cons.mp ha with hb | hb
    · subst hb
      simp [List.filter_cons, hpa, hqa]
      exact Nat.lt_succ_of_le (length_filter_le_of_imp bs p q h)
    · by_cases hq : q b = true
      · simp [List.filter_cons, hq, h b hq]
        exact ih hb
      · simp only [Bool.not_eq_true] at hq
        by_cases hp : p b = true
        · simp [List.filter_cons, hq, hp]
          exact Nat.lt_succ_of_lt (ih hb)
        · simp only [Bool.not_eq_true] at hp
          simp [List.filter_cons, hq, hp]
          exact ih hb

namespace CollectraGraph

/-- A successful `children_of_type` call certifies that the queried id is a
graph node (otherwise `networkx` would have raised). -/
theorem children_of_type_ok_mem {g : CollectraGraph} {n f : String}
    {tc : List String} (h : g.children_of_type n f = .ok tc) :
    n ∈ g.nodeKeys := by
  unfold children_of_type children at h
  by_cases hc : n ∈ g.nodeKeys
  · exact hc
  · simp [hc] at h

theorem payloadOf_mem_keys {g : CollectraGraph} {i : String} {n : CollectraNode}
    (h : g.payloadOf i = some n) : i ∈ g.nodeKeys := by
  unfold payloadOf at h
  cases hf : g.nodes.find? (fun p => p.1 = i) with
  | none => simp [hf] at h
  | some p =>
    have hp := List.find?_some hf
    have hm := List.mem_of_find?_eq_some hf
    simp only [decide_eq_true_eq] at hp
    subst hp
    exact List.mem_map.mpr ⟨p, hm, rfl⟩

theorem payloadOf_id {g : CollectraGraph} {i : String} {n : CollectraNode}
    (hwf : g.Wf) (h : g.payloadOf i = some n) : n.id = i := by
  unfold payloadOf at h
  cases hf : g.nodes.find? (fun p => p.1 = i) with
  | none => simp [hf] at h
  | some p =>
    rw [hf] at h
    simp only [] at h
    have hp := List.find?_some hf
    have hm := List.mem_of_find?_eq_some hf
    simp only [decide_eq_true_eq] at hp
    have h2 := hwf.2.1 p hm
    rw [h] at h2
    simp only [Option.map_some', Option.getD_some] at h2
    rw [h2, hp]

/-- Updating the payload of a key that is not present leaves the node list
untouched. -/
theorem update_id_of_not_mem (l : List (String × Option CollectraNode))
    (i : String) (n : CollectraNode) (h : i ∉ l.map Prod.fst) :
    l.map (fun p => if p.1 = i then (p.1, some n) else p) = l := by
  induction l with
  | nil => rfl
  | cons q qs ih =>
    simp only [List.map_cons, List.mem_cons, not_or] at h ⊢
    have hq : ¬ q.1 = i := fun hc => h.1 hc.symm
    rw [if_neg hq, ih h.2]

/-- Flipping the payload of the unique occurrence of a phantom key inserts
exactly one payload into the payload list, up to permutation. -/
theorem filterMap_update_perm (l : List (String × Option CollectraNode))
    (i : String) (n : CollectraNode) (hnd : (l.map Prod.fst).Nodup)
    (hmem : i ∈ l.map Prod.fst) (hnone : ∀ p ∈ l, p.1 = i → p.2 = none) :
    ((l.map (fun p => if p.1 = i then (p.1, some n) else p)).filterMap Prod.snd).Perm
      (n :: l.filterMap Prod.snd) := by
  induction l with
  | nil => cases hmem
  | cons q qs ih =>
    simp only [List.map_cons, List.nodup_cons] at hnd
    by_cases hq : q.1 = i
    · have hq2 : q.2 = none := hnone q (List.mem_cons_self q qs) hq
      have hrest : i ∉ qs.map Prod.fst := by rw [← hq]; exact hnd.1
      rw [List.map_cons, if_pos hq, update_id_of_not_mem qs i n hrest]
      simp [List.filterMap_cons, hq2]
    · have hmem2 : i ∈ qs.map Prod.fst := by
        rcases List.mem_cons.mp hmem with h1 | h1
        · exact absurd h1.symm hq
        · exact h1
      have ihq := ih hnd.2 hmem2 (fun p hp => hnone p (List.mem_cons_of_mem q hp))
      rw [List.map_cons, if_neg hq]
      cases hq2 : q.2 with
      | none => simpa [List.filterMap_cons, hq2] using ihq
      | some m =>
        simp only [List.filterMap_cons, hq2]
        exact (ihq.cons m).trans (List.Perm.swap n m _)

/-- `nxAddNode` under the graph invariants, with a fresh payload id: the
payload multiset gains exactly the new node. -/
theorem realNodes_nxAddNode {g : CollectraGraph} {n : CollectraNode}
    (hnd : g.nodeKeys.Nodup)
    (hids : ∀ p ∈ g.nodes, (p.2.map CollectraNode.id).getD p.1 = p.1)
    (hni : n.id ∉ g.realIds) :
    ((g.nxAddNode n.id n).realNodes).Perm (n :: g.realNodes) := by
  unfold nxAddNode realNodes
  by_cases hm : n.id ∈ g.nodeKeys
  · simp only [hm, if_pos]
    apply filterMap_update_perm _ _ _ hnd hm
    intro p hp hpi
    cases hp2 : p.2 with
    | none => rfl
    | some m =>
      exfalso
      apply hni
      have := hids p hp
      rw [hp2] at this
      simp only [Option.map_some', Option.getD_some] at this
      have hmm : m ∈ g.realNodes := by
        unfold realNodes
        exact List.mem_filterMap.mpr ⟨p, hp, hp2⟩
      unfold realIds
      rw [← hpi, ← this]
      exact List.mem_map.mpr ⟨m, hmm, rfl⟩
  · rw [if_neg hm, List.filterMap_append]
    simp only [List.filterMap_cons, List.filterMap_nil]
    exact List.perm_append_singleton n _

/-- `ensureNode` only ever appends a payload-less entry. -/
theorem filterMap_ensureNode (ns : List (String × Option CollectraNode)) (i : String) :
    (ensureNode ns i).filterMap Prod.snd = ns.filterMap Prod.snd := by
  unfold ensureNode
  by_cases hm : i ∈ ns.map Prod.fst
  · rw [if_pos hm]
  · rw [if_neg hm, List.filterMap_append]
    simp

/-- `nxAddEdge` never touches payloads. -/
theorem realNodes_nxAddEdge (g : CollectraGraph) (u v : String) :
    (g.nxAddEdge u v).realNodes = g.realNodes := by
  unfold nxAddEdge realNodes
  simp [filterMap_ensureNode]

/-- The parent-edge loop of `add_node` never touches payloads. -/
theorem realNodes_foldEdges (ps : List String) (x : String) :
    ∀ g : CollectraGraph,
      ((ps.foldl (fun gg p => nxAddEdge gg p x) g)).realNodes = g.realNodes := by
  induction ps with
  | nil => intro g; rfl
  | cons p pr ih =>
    intro g
    rw [List.foldl_cons, ih, realNodes_nxAddEdge]

/-- Keys never disappear under `ensureNode`, and the ensured key is present. -/
theorem keys_ensureNode_sub (ns : List (String × Option CollectraNode)) (i : String) :
    ns.map Prod.fst ⊆ (ensureNode ns i).map Prod.fst := by
  unfold ensureNode
  by_cases hm : i ∈ ns.map Prod.fst
  · rw [if_pos hm]
    exact fun x hx => hx
  · rw [if_neg hm, List.map_append]
    exact List.subset_append_left _ _

theorem mem_keys_ensureNode (ns : List (String × Option CollectraNode)) (i : String) :
    i ∈ (ensureNode ns i).map Prod.fst := by
  unfold ensureNode
  by_cases hm : i ∈ ns.map Prod.fst
  · rw [if_pos hm]; exact hm
  · rw [if_neg hm, List.map_append]
    simp

theorem keys_nxAddEdge_sub (g : CollectraGraph) (u v : String) :
    g.nodeKeys ⊆ (g.nxAddEdge u v).nodeKeys := by
  unfold nxAddEdge nodeKeys
  intro x hx
  exact keys_ensureNode_sub _ v (keys_ensureNode_sub _ u hx)

theorem mem_keys_nxAddEdge_left (g : CollectraGraph) (u v : String) :
    u ∈ (g.nxAddEdge u v).nodeKeys := by
  unfold nxAddEdge nodeKeys
  exact keys_ensureNode_sub _ v (mem_keys_ensureNode _ u)

theorem mem_keys_nxAddEdge_right (g : CollectraGraph) (u v : String) :
    v ∈ (g.nxAddEdge u v).nodeKeys := by
  unfold nxAddEdge nodeKeys
  exact mem_keys_ensureNode _ v

theorem mem_edges_nxAddEdge (g : CollectraGraph) (u v : String) :
    (u, v) ∈ (g.nxAddEdge u v).edges := by
  unfold nxAddEdge
  by_cases hm : (u, v) ∈ g.edges
  · simpa [hm] using hm
  · simp [hm]

theorem edges_nxAddEdge_sub (g : CollectraGraph) (u v : String) :
    g.edges ⊆ (g.nxAddEdge u v).edges := by
  unfold nxAddEdge
  by_cases hm : (u, v) ∈ g.edges
  · simp [hm]
  · simp only [hm, if_neg, not_false_iff]
    exact List.subset_append_left _ _

theorem keys_update (l : List (String × Option CollectraNode)) (i : String)
    (n : CollectraNode) :
    (l.map (fun p => if p.1 = i then (p.1, some n) else p)).map Prod.fst
      = l.map Prod.fst := by
  induction l with
  | nil => rfl
  | cons q qs ih =>
    by_cases h : q.1 = i <;> simp [h, ih]

theorem wf_nxAddNode {g : CollectraGraph} (n : CollectraNode) (hwf : g.Wf) :
    (g.nxAddNode n.id n).Wf := by
  obtain ⟨h1, h2, h3⟩ := hwf
  unfold nxAddNode Wf nodeKeys at *
  by_cases hm : n.id ∈ g.nodes.map Prod.fst
  · simp only [hm, if_pos, keys_update]
    refine ⟨h1, ?_, h3⟩
    intro p hp
    rcases List.mem_map.mp hp with ⟨q, hq, hqe⟩
    by_cases hqi : q.1 = n.id
    · rw [if_pos hqi] at hqe
      subst hqe
      simp [hqi]
    · rw [if_neg hqi] at hqe
      subst hqe
      exact h2 q hq
  · simp only [hm, if_neg, not_false_iff, List.map_append]
    refine ⟨?_, ?_, ?_⟩
    · simp only [List.map_cons, List.map_nil]
      exact List.nodup_append.mpr ⟨h1, List.nodup_singleton _,
        by intro x hx; simp; intro hxe; subst hxe; exact hm hx⟩
    · intro p hp
      rcases List.mem_append.mp hp with hp1 | hp1
      · exact h2 p hp1
      · simp at hp1
        subst hp1
        simp
    · intro e he
      obtain ⟨he1, he2⟩ := h3 e he
      exact ⟨List.mem_append_left _ he1, List.mem_append_left _ he2⟩

theorem wf_ensureNode {ns : List (String × Option CollectraNode)} (i : String)
    (h1 : (ns.map Prod.fst).Nodup)
    (h2 : ∀ p ∈ ns, (p.2.map CollectraNode.id).getD p.1 = p.1) :
    ((ensureNode ns i).map Prod.fst).Nodup ∧
      (∀ p ∈ ensureNode ns i, (p.2.map CollectraNode.id).getD p.1 = p.1) := by
  unfold ensureNode
  by_cases hm : i ∈ ns.map Prod.fst
  · rw [if_pos hm]
    exact ⟨h1, h2⟩
  · rw [if_neg hm]
    constructor
    · rw [List.map_append]
      exact List.nodup_append.mpr ⟨h1, by simp,
        by intro x hx; simp; intro hxe; subst hxe; exact hm hx⟩
    · intro p hp
      rcases List.mem_append.mp hp with hp1 | hp1
      · exact h2 p hp1
      · simp at hp1
        subst hp1
        simp

theorem wf_nxAddEdge {g : CollectraGraph} (u v : String) (hwf : g.Wf) :
    (g.nxAddEdge u v).Wf := by
  obtain ⟨h1, h2, h3⟩ := hwf
  have hu := @wf_ensureNode g.nodes u h1 h2
  have hv := @wf_ensureNode (ensureNode g.nodes u) v hu.1 hu.2
  refine ⟨hv.1, hv.2, ?_⟩
  intro e he
  have hkeys : g.nodeKeys ⊆ (g.nxAddEdge u v).nodeKeys := keys_nxAddEdge_sub g u v
  unfold nxAddEdge at he ⊢
  by_cases hm : (u, v) ∈ g.edges
  · rw [if_pos hm] at he
    obtain ⟨he1, he2⟩ := h3 e he
    exact ⟨hkeys he1, hkeys he2⟩
  · rw [if_neg hm] at he
    rcases List.mem_append.mp he with he1 | he1
    · obtain ⟨hx1, hx2⟩ := h3 e he1
      exact ⟨hkeys hx1, hkeys hx2⟩
    · simp at he1
      subst he1
      exact ⟨mem_keys_nxAddEdge_left g u v, mem_keys_nxAddEdge_right g u v⟩

theorem wf_foldEdges {x : String} (ps : List String) :
    ∀ {g : CollectraGraph}, g.Wf →
      ((ps.foldl (fun gg p => nxAddEdge gg p x) g)).Wf := by
  induction ps with
  | nil => intro g hwf; exact hwf
  | cons p pr ih =>
    intro g hwf
    rw [List.foldl_cons]
    exact ih (wf_nxAddEdge p x hwf)

/-- Unfolding a successful `add_node` call. -/
theorem add_node_ok {g g' : CollectraGraph} {bag : FieldBag}
    (h : g.add_node bag = .ok g') :
    ∃ n, create_node bag (normalise_items bag.parentsKey) = .ok n ∧
      g' = (normalise_items bag.parentsKey).foldl
        (fun gg p => nxAddEdge gg p n.id) (g.nxAddNode n.id n) := by
  unfold add_node at h
  cases hc : create_node bag (normalise_items bag.parentsKey) with
  | error e => rw [hc] at h; cases h
  | ok n =>
    rw [hc] at h
    simp only [Except.ok.injEq] at h
    exact ⟨n, rfl, h.symm⟩

theorem wf_add_node {g g' : CollectraGraph} {bag : FieldBag} (hwf : g.Wf)
    (h : g.add_node bag = .ok g') : g'.Wf := by
  obtain ⟨n, _, hg⟩ := add_node_ok h
  rw [hg]
  exact wf_foldEdges _ (wf_nxAddNode n hwf)

/-- A successful `add_node` with a fresh id adds exactly the created node to
the payload multiset. -/
theorem realNodes_add_node {g g' : CollectraGraph} {bag : FieldBag}
    {n : CollectraNode} (hwf : g.Wf)
    (hc : create_node bag (normalise_items bag.parentsKey) = .ok n)
    (hni : n.id ∉ g.realIds) (h : g.add_node bag = .ok g') :
    (g'.realNodes).Perm (n :: g.realNodes) := by
  obtain ⟨m, hm, hg⟩ := add_node_ok h
  rw [hc] at hm
  simp only [Except.ok.injEq] at hm
  subst hm
  rw [hg, realNodes_foldEdges]
  exact realNodes_nxAddNode hwf.1 hwf.2.1 hni

theorem find?_update_self (l : List (String × Option CollectraNode))
    (i : String) (n : CollectraNode) (hm : i ∈ l.map Prod.fst) :
    (l.map (fun p => if p.1 = i then (p.1, some n) else p)).find?
      (fun p => p.1 = i) = some (i, some n) := by
  induction l with
  | nil => cases hm
  | cons q qs ih =>
    by_cases hq : q.1 = i
    · simp [hq]
    · rcases List.mem_cons.mp hm with h1 | h1
      · exact absurd h1.symm hq
      · rw [List.map_cons, if_neg hq, List.find?_cons_of_neg]
        · exact ih h1
        · simp [hq]

theorem find?_update_other (l : List (String × Option CollectraNode))
    (i j : String) (n : CollectraNode) (hij : j ≠ i) :
    (l.map (fun p => if p.1 = i then (p.1, some n) else p)).find?
      (fun p => p.1 = j) = l.find? (fun p => p.1 = j) := by
  induction l with
  | nil => rfl
  | cons q qs ih =>
    by_cases hqi : q.1 = i
    · have hqj : ¬ q.1 = j := by rw [hqi]; exact fun hc => hij hc.symm
      rw [List.map_cons, if_pos hqi, List.find?_cons_of_neg, List.find?_cons_of_neg]
      · exact ih
      · simpa using hqj
      · simpa [hqi] using fun hc : i = j => hij hc.symm
    · by_cases hqj : q.1 = j
      · rw [List.map_cons, if_neg hqi, List.find?_cons_of_pos, List.find?_cons_of_pos]
        · simpa using hqj
        · simpa using hqj
      · rw [List.map_cons, if_neg hqi, List.find?_cons_of_neg, List.find?_cons_of_neg]
        · exact ih
        · simpa using hqj
        · simpa using hqj

/-- Storing under id `i` makes the payload at `i` the stored node. -/
theorem payloadOf_nxAddNode_self (g : CollectraGraph) (i : String)
    (n : CollectraNode) : (g.nxAddNode i n).payloadOf i = some n := by
  unfold nxAddNode payloadOf
  by_cases hm : i ∈ g.nodeKeys
  · simp only [hm, if_pos]
    rw [find?_update_self g.nodes i n hm]
  · simp only [hm, if_neg, not_false_iff]
    have hnone : g.nodes.find? (fun p => p.1 = i) = none := by
      rw [List.find?_eq_none]
      intro x hx
      simp only [decide_eq_true_eq]
      intro hxe
      exact hm (List.mem_map.mpr ⟨x, hx, hxe⟩)
    rw [List.find?_append, hnone]
    simp

/-- Storing under id `i` leaves every other payload untouched. -/
theorem payloadOf_nxAddNode_other (g : CollectraGraph) (i j : String)
    (n : CollectraNode) (hij : j ≠ i) :
    (g.nxAddNode i n).payloadOf j = g.payloadOf j := by
  unfold nxAddNode payloadOf
  by_cases hm : i ∈ g.nodeKeys
  · simp only [hm, if_pos]
    rw [find?_update_other g.nodes i j n hij]
  · simp only [hm, if_neg, not_false_iff]
    rw [List.find?_append]
    have : List.find? (fun p => decide (p.1 = j)) [(i, some n)] = none := by
      simp only [List.find?_cons, List.find?_nil]
      have : ¬ i = j := fun hc => hij hc.symm
      simp [this]
    rw [this]
    cases g.nodes.find? (fun p => p.1 = j) <;> simp

/-- `add_edge` never changes any payload: it only appends payload-less
entries for missing endpoints. -/
theorem payloadOf_ensure (ns : List (String × Option CollectraNode)) (i j : String) :
    (match (ensureNode ns i).find? (fun p => p.1 = j) with
      | some p => p.2 | none => none)
    = (match ns.find? (fun p => p.1 = j) with
      | some p => p.2 | none => none) := by
  unfold ensureNode
  by_cases hm : i ∈ ns.map Prod.fst
  · rw [if_pos hm]
  · rw [if_neg hm, List.find?_append]
    cases hf : ns.find? (fun p => p.1 = j) with
    | some p => simp
    | none =>
      simp only [Option.none_or]
      by_cases hij : i = j
      · simp [hij]
      · simp [hij]

theorem payloadOf_nxAddEdge (g : CollectraGraph) (u v j : String) :
    (g.nxAddEdge u v).payloadOf j = g.payloadOf j := by
  unfold nxAddEdge payloadOf
  simp only []
  rw [payloadOf_ensure, payloadOf_ensure]

theorem payloadOf_foldEdges (ps : List String) (x : String) :
    ∀ (g : CollectraGraph) (j : String),
      ((ps.foldl (fun gg p => nxAddEdge gg p x) g)).payloadOf j = g.payloadOf j := by
  induction ps with
  | nil => intro g j; rfl
  | cons p pr ih =>
    intro g j
    rw [List.foldl_cons, ih, payloadOf_nxAddEdge]

/-- Edges only grow along the parent-edge loop, and each parent gets its
edge. -/
theorem edges_foldEdges_sub (ps : List String) (x : String) :
    ∀ g : CollectraGraph,
      g.edges ⊆ ((ps.foldl (fun gg p => nxAddEdge gg p x) g)).edges := by
  induction ps with
  | nil => intro g e he; exact he
  | cons p pr ih =>
    intro g e he
    rw [List.foldl_cons]
    exact ih _ (edges_nxAddEdge_sub g p x he)

theorem mem_edges_foldEdges (ps : List String) (x : String) :
    ∀ (g : CollectraGraph) (p : String), p ∈ ps →
      (p, x) ∈ ((ps.foldl (fun gg q => nxAddEdge gg q x) g)).edges := by
  induction ps with
  | nil => intro g p hp; cases hp
  | cons q qr ih =>
    intro g p hp
    rw [List.foldl_cons]
    rcases List.mem_cons.mp hp with h1 | h1
    · subst h1
      exact edges_foldEdges_sub qr x _ (mem_edges_nxAddEdge g p x)
    · exact ih _ p h1

theorem keys_foldEdges_sub (ps : List String) (x : String) :
    ∀ g : CollectraGraph,
      g.nodeKeys ⊆ ((ps.foldl (fun gg p => nxAddEdge gg p x) g)).nodeKeys := by
  induction ps with
  | nil => intro g k hk; exact hk
  | cons p pr ih =>
    intro g k hk
    rw [List.foldl_cons]
    exact ih _ (keys_nxAddEdge_sub g p x hk)

theorem mem_keys_foldEdges (ps : List String) (x : String) :
    ∀ (g : CollectraGraph) (p : String), p ∈ ps →
      p ∈ ((ps.foldl (fun gg q => nxAddEdge gg q x) g)).nodeKeys := by
  induction ps with
  | nil => intro g p hp; cases hp
  | cons q qr ih =>
    intro g p hp
    rw [List.foldl_cons]
    rcases List.mem_cons.mp hp with h1 | h1
    · subst h1
      exact keys_foldEdges_sub qr x _ (mem_keys_nxAddEdge_left g p x)
    · exact ih _ p h1

theorem payloadOf_eq_none_of_not_mem (g : CollectraGraph) (i : String)
    (h : i ∉ g.nodeKeys) : g.payloadOf i = none := by
  unfold payloadOf
  have : g.nodes.find? (fun p => p.1 = i) = none := by
    rw [List.find?_eq_none]
    intro x hx
    simp only [decide_eq_true_eq]
    intro hxe
    exact h (List.mem_map.mpr ⟨x, hx, hxe⟩)
  rw [this]

theorem realIds_sub_keys {g : CollectraGraph}
    (hids : ∀ p ∈ g.nodes, (p.2.map CollectraNode.id).getD p.1 = p.1) :
    g.realIds ⊆ g.nodeKeys := by
  intro x hx
  unfold realIds realNodes at hx
  rcases List.mem_map.mp hx with ⟨m, hm, hme⟩
  rcases List.mem_filterMap.mp hm with ⟨p, hp, hsnd⟩
  have := hids p hp
  rw [hsnd] at this
  simp only [Option.map_some', Option.getD_some] at this
  rw [← hme, this]
  exact List.mem_map.mpr ⟨p, hp, rfl⟩

theorem mem_successorsList {g : CollectraGraph} {u v : String}
    (h : (u, v) ∈ g.edges) : v ∈ g.successorsList u := by
  unfold successorsList
  exact List.mem_map.mpr ⟨(u, v), List.mem_filter.mpr ⟨h, by simp⟩, rfl⟩

end CollectraGraph

/-- A node built by the factory carries exactly the bag's fields. -/
theorem create_node_fields {bag : FieldBag} {ps : List String} {n : CollectraNode}
    (h : create_node bag ps = .ok n) :
    n.id = bag.idKey.getD "" ∧ n.type = bag.typeKey.getD "" ∧
    n.data = bag.dataKey.getD "" ∧ n.label = bag.labelKey.getD "" ∧
    n.parents = ps := by
  unfold create_node at h
  by_cases hic : strContains (bag.typeKey.getD "") "ImageCrop" = true
  · rw [if_pos hic] at h
    cases hx : bag.xCenterKey with
    | none => rw [hx] at h; cases h
    | some x =>
      rw [hx] at h
      cases hy : bag.yCenterKey with
      | none => rw [hy] at h; cases h
      | some y =>
        rw [hy] at h
        cases hw : bag.widthKey with
        | none => rw [hw] at h; cases h
        | some w =>
          rw [hw] at h
          cases hh : bag.heightKey with
          | none => rw [hh] at h; cases h
          | some z =>
            rw [hh] at h
            cases hi : bag.idKey with
            | none => rw [hi] at h; cases h
            | some i =>
              rw [hi] at h
              injection h with h2
              subst h2
              simp [hi]
  · rw [if_neg hic] at h
    cases hi : bag.idKey with
    | none => rw [hi] at h; cases h
    | some i =>
      rw [hi] at h
      cases ht : bag.typeKey with
      | none => rw [ht] at h; cases h
      | some t =>
        rw [ht] at h
        injection h with h2
        subst h2
        simp [hi, ht]

theorem keys_map_update {β : Type} (l : List (String × β)) (k : String) (f : β → β) :
    (l.map (fun q => if q.1 = k then (q.1, f q.2) else q)).map Prod.fst
      = l.map Prod.fst := by
  induction l with
  | nil => rfl
  | cons q qs ih =>
    by_cases h : q.1 = k <;> simp [h, ih]

theorem map_update_id_of_not_mem {β : Type} (l : List (String × β)) (k : String)
    (f : β → β) (h : k ∉ l.map Prod.fst) :
    l.map (fun q => if q.1 = k then (q.1, f q.2) else q) = l := by
  induction l with
  | nil => rfl
  | cons q qs ih =>
    simp only [List.map_cons, List.mem_cons, not_or] at h ⊢
    have hq : ¬ q.1 = k := fun hc => h.1 hc.symm
    rw [if_neg hq, ih h.2]

theorem keys_groupInsert_nodup (acc : List (String × List DumpedNode))
    (e : String × DumpedNode) (h : (acc.map Prod.fst).Nodup) :
    ((groupInsert acc e).map Prod.fst).Nodup := by
  unfold groupInsert
  by_cases hm : e.1 ∈ acc.map Prod.fst
  · rw [if_pos hm, List.map_map]
    have hfun : (Prod.fst ∘ fun q : String × List DumpedNode =>
        if q.1 = e.1 then (q.1, q.2 ++ [e.2]) else q) = Prod.fst := by
      funext q
      by_cases hc : q.1 = e.1 <;> simp [hc]
    rw [hfun]
    exact h
  · rw [if_neg hm, List.map_append]
    exact List.nodup_append.mpr ⟨h, by simp,
      by intro x hx; simp; intro hxe; subst hxe; exact hm hx⟩

theorem flatten_groupInsert (acc : List (String × List DumpedNode))
    (e : String × DumpedNode) (hnd : (acc.map Prod.fst).Nodup) :
    ((groupInsert acc e).flatMap Prod.snd).Perm (acc.flatMap Prod.snd ++ [e.2]) := by
  unfold groupInsert
  by_cases hm : e.1 ∈ acc.map Prod.fst
  · rw [if_pos hm]
    induction acc with
    | nil => cases hm
    | cons q qs ih =>
      simp only [List.map_cons, List.nodup_cons] at hnd
      by_cases hq : q.1 = e.1
      · have hrest : e.1 ∉ qs.map Prod.fst := by rw [← hq]; exact hnd.1
        rw [List.map_cons, if_pos hq,
          map_update_id_of_not_mem qs e.1 (fun v => v ++ [e.2]) hrest]
        simp only [List.flatMap_cons, List.append_assoc]
        refine List.Perm.append_left q.2 ?_
        exact List.perm_append_comm
      · have hmem2 : e.1 ∈ qs.map Prod.fst := by
          rcases List.mem_cons.mp hm with h1 | h1
          · exact absurd h1.symm hq
          · exact h1
        have ihq := ih hnd.2 hmem2
        rw [List.map_cons, if_neg hq]
        simp only [List.flatMap_cons, List.append_assoc] at ihq ⊢
        exact List.Perm.append_left q.2 ihq
  · rw [if_neg hm, List.flatMap_append]
    simp

theorem flatten_foldl_groupInsert (l : List (String × DumpedNode)) :
    ∀ acc : List (String × List DumpedNode), (acc.map Prod.fst).Nodup →
      (((l.foldl groupInsert acc).flatMap Prod.snd)).Perm
        (acc.flatMap Prod.snd ++ l.map Prod.snd) := by
  induction l with
  | nil => intro acc _; simp
  | cons e es ih =>
    intro acc hnd
    rw [List.foldl_cons]
    have h1 := ih (groupInsert acc e) (keys_groupInsert_nodup acc e hnd)
    have h2 := flatten_groupInsert acc e hnd
    refine h1.trans ?_
    refine (h2.append_right (es.map Prod.snd)).trans ?_
    rw [List.append_assoc]
    simp

theorem dumpTuple_nodeDump (n : CollectraNode) :
    dumpTuple (nodeDump n) = nodeTuple n := by
  unfold dumpTuple nodeDump nodeTuple
  match hp : n.parents with
  | [] => simp
  | [p] => simp
  | a :: b :: t => simp

namespace CollectraGraph

/-- The tuples of the serialized document are, up to permutation, the tuples
of the stored payload-bearing nodes: grouping by label followed by
single-element collapse loses and duplicates nothing. -/
theorem exportTuples_to_yaml (g : CollectraGraph) :
    (exportTuples g.to_yaml_data).Perm ((g.realNodes).map nodeTuple) := by
  unfold to_yaml_data exportTuples
  simp only []
  have step1 : ∀ gl : List (String × List DumpedNode),
      ((gl.map (fun p =>
        match p.2 with
        | [d] => (p.1, ExportGroup.one d)
        | l => (p.1, ExportGroup.many l))).flatMap (fun p =>
          match p.2 with
          | .one d => [dumpTuple d]
          | .many ds => ds.map dumpTuple))
      = gl.flatMap (fun p => p.2.map dumpTuple) := by
    intro gl
    induction gl with
    | nil => rfl
    | cons q qs ih =>
      match hq : q.2 with
      | [] => simp [hq, ih]
      | [d] => simp [hq, ih]
      | a :: b :: t => simp [hq, ih]
  rw [step1]
  have step2 : ∀ gl : List (String × List DumpedNode),
      gl.flatMap (fun p => p.2.map dumpTuple) = (gl.flatMap Prod.snd).map dumpTuple := by
    intro gl
    rw [List.map_flatMap]
  rw [step2]
  have step3 := flatten_foldl_groupInsert
    (g.nodes.filterMap (fun p => p.2.map (fun n => (n.label, nodeDump n)))) [] (by simp)
  have step4 : ((g.nodes.filterMap
      (fun p => p.2.map (fun n => (n.label, nodeDump n)))).map Prod.snd)
      = (g.realNodes).map nodeDump := by
    unfold realNodes
    induction g.nodes with
    | nil => rfl
    | cons q qs ih =>
      cases hq : q.2 with
      | none => simp [List.filterMap_cons, hq, ih]
      | some m => simp [List.filterMap_cons, hq, ih]
  refine (step3.map dumpTuple).trans ?_
  rw [List.nil_flatMap, List.nil_append, step4, List.map_map]
  have : dumpTuple ∘ nodeDump = nodeTuple := by
    funext n
    exact dumpTuple_nodeDump n
  rw [this]

/-- The import fold: starting from a well-formed graph, importing items with
pairwise-distinct, previously unseen ids keeps the graph well-formed and
appends exactly one node tuple per item (up to permutation). -/
theorem from_fold (items : List (String × FieldBag)) :
    ∀ g : CollectraGraph, g.Wf →
      ((items.map (fun lb => lb.2.idKey.getD "")).Nodup) →
      (∀ lb ∈ items, lb.2.idKey.getD "" ∉ g.realIds) →
      ∀ g', items.foldlM
          (fun gg lb => gg.add_node { lb.2 with labelKey := some lb.1 }) g = .ok g' →
      g'.Wf ∧ ((g'.realNodes).map nodeTuple).Perm
        (((g.realNodes).map nodeTuple) ++ items.map (fun lb => bagTuple lb.2)) := by
  induction items with
  | nil =>
    intro g hwf _ _ g' h
    simp only [List.foldlM_nil] at h
    have hg : g = g' := by
      injection h
    subst hg
    exact ⟨hwf, by simp⟩
  | cons lb rest ih =>
    intro g hwf hnd hfresh g' h
    rw [List.foldlM_cons] at h
    cases hadd : g.add_node { lb.2 with labelKey := some lb.1 } with
    | error e =>
      rw [hadd] at h
      cases h
    | ok g1 =>
      rw [hadd] at h
      have h1 : rest.foldlM
          (fun gg lb => gg.add_node { lb.2 with labelKey := some lb.1 }) g1 = .ok g' := h
      obtain ⟨n, hc, _⟩ := add_node_ok hadd
      have hfields := create_node_fields hc
      have hnid : n.id = lb.2.idKey.getD "" := hfields.1
      have hfreshn : n.id ∉ g.realIds := by
        rw [hnid]
        exact hfresh lb (List.mem_cons_self lb rest)
      have hwf1 : g1.Wf := wf_add_node hwf hadd
      have hreal1 : (g1.realNodes).Perm (n :: g.realNodes) :=
        realNodes_add_node hwf hc hfreshn hadd
      have hids1 : (g1.realIds).Perm (n.id :: g.realIds) := by
        unfold realIds
        simpa using hreal1.map CollectraNode.id
      simp only [List.map_cons, List.nodup_cons] at hnd
      have hfresh1 : ∀ lb' ∈ rest, lb'.2.idKey.getD "" ∉ g1.realIds := by
        intro lb' hlb' hmem
        have hmem2 := (hids1.mem_iff).mp hmem
        rcases List.mem_cons.mp hmem2 with h2 | h2
        · rw [hnid] at h2
          exact hnd.1 (h2 ▸ List.mem_map.mpr ⟨lb', hlb', rfl⟩)
        · exact hfresh lb' (List.mem_cons_of_mem lb hlb') h2
      obtain ⟨hwf', hperm'⟩ := ih g1 hwf1 hnd.2 hfresh1 g' h1
      refine ⟨hwf', ?_⟩
      have htuple : nodeTuple n = bagTuple lb.2 := by
        unfold nodeTuple bagTuple
        obtain ⟨f1, f2, f3, f4, f5⟩ := hfields
        simp only [f1, f2, f3, f5]
      refine hperm'.trans ?_
      have hmapped : ((g1.realNodes).map nodeTuple).Perm
          (bagTuple lb.2 :: (g.realNodes).map nodeTuple) := by
        have := hreal1.map nodeTuple
        simpa [htuple] using this
      refine (hmapped.append_right (rest.map fun lb => bagTuple lb.2)).trans ?_
      simp only [List.map_cons, List.cons_append]
      exact (List.perm_middle).symm

/-- A successful import with pairwise-distinct item ids yields a well-formed
graph whose payload tuples are exactly the document's tuples. -/
theorem from_yaml_tuples {doc : ImportDoc} {g : CollectraGraph}
    (hok : from_yaml_data doc = .ok g) (hids : (docIds doc).Nodup) :
    g.Wf ∧ ((g.realNodes).map nodeTuple).Perm (docTuples doc) := by
  unfold from_yaml_data at hok
  have h0 : CollectraGraph.Wf
      { metadata := match doc.metaEntry with
          | some m => metadataOf m
          | none => {} } := by
    refine ⟨?_, ?_, ?_⟩ <;> simp [nodeKeys]
  obtain ⟨hwf, hperm⟩ := from_fold (flattenDoc doc) _ h0 hids
    (by intro lb _ hmem; simp [realIds, realNodes] at hmem) g hok
  refine ⟨hwf, ?_⟩
  simpa [realNodes, docTuples] using hperm

theorem children_of_type_ok_of_mem (g : CollectraGraph) (n f : String)
    (h : n ∈ g.nodeKeys) :
    g.children_of_type n f
      = .ok ((g.successorsList n).filter (fun c => strContains (g.get_type c) f)) := by
  unfold children_of_type children
  rw [if_pos h]

theorem children_of_type_error_not_mem {g : CollectraGraph} {n f : String} {e : Err}
    (h : g.children_of_type n f = .error e) : n ∉ g.nodeKeys := by
  intro hm
  rw [children_of_type_ok_of_mem g n f hm] at h
  cases h

theorem children_of_type_ok_sub {g : CollectraGraph} {n f : String}
    {tc : List String} (h : g.children_of_type n f = .ok tc) :
    ∀ c ∈ tc, c ∈ g.successorsList n := by
  have hm := children_of_type_ok_mem h
  rw [children_of_type_ok_of_mem g n f hm] at h
  injection h with h2
  subst h2
  intro c hc
  exact List.mem_of_mem_filter hc

theorem successorsList_mem_keys {g : CollectraGraph} (hclosed : g.EdgesClosed)
    {u v : String} (h : v ∈ g.successorsList u) : v ∈ g.nodeKeys := by
  unfold successorsList at h
  rcases List.mem_map.mp h with ⟨e, he, hev⟩
  have := hclosed e (List.mem_of_mem_filter he)
  rw [← hev]
  exact this.2

/-- Basic monotonicity across a terminated DFS loop: the initial visited set,
every stack element, and the accumulated leaves survive into the final state. -/
theorem dfsAux_sub (g : CollectraGraph) (f : String) :
    ∀ stack visited leaves : List String, ∀ res vis : List String,
      dfsAux g f stack visited leaves = .ok (res, vis) →
      (∀ x ∈ visited, x ∈ vis) ∧ (∀ x ∈ stack, x ∈ vis) ∧ (∀ x ∈ leaves, x ∈ res) := by
  intro stack visited leaves
  induction stack, visited, leaves using dfsAux.induct g f with
  | case1 visited leaves =>
    intro res vis h
    simp only [dfsAux] at h
    injection h with h2
    injection h2 with hl hv
    subst hl
    subst hv
    exact ⟨fun x hx => hx, fun x hx => absurd hx (List.not_mem_nil x), fun x hx => hx⟩
  | case2 n rest visited leaves hmem ih =>
    intro res vis h
    simp only [dfsAux, dif_pos hmem] at h
    obtain ⟨h1, h2, h3⟩ := ih res vis h
    refine ⟨h1, ?_, h3⟩
    intro x hx
    rcases List.mem_cons.mp hx with hx1 | hx1
    · subst hx1; exact h1 x hmem
    · exact h2 x hx1
  | case3 n rest visited leaves hnmem e hcot =>
    intro res vis h
    simp only [dfsAux, dif_neg hnmem] at h
    split at h
    · cases h
    · simp_all
  | case4 n rest visited leaves hnmem tc hcot hemp ih =>
    intro res vis h
    simp only [dfsAux, dif_neg hnmem] at h
    split at h
    · simp_all
    · rename_i tc2 heq
      rw [hcot] at heq
      injection heq with heq2
      subst heq2
      rw [if_pos hemp] at h
      obtain ⟨h1, h2, h3⟩ := ih res vis h
      refine ⟨fun x hx => h1 x (List.mem_cons_of_mem n hx), ?_, ?_⟩
      · intro x hx
        rcases List.mem_cons.mp hx with hx1 | hx1
        · subst hx1; exact h1 x (List.mem_cons_self x visited)
        · exact h2 x hx1
      · intro x hx
        exact h3 x (List.mem_append_left _ hx)
  | case5 n rest visited leaves hnmem tc hcot hemp ih =>
    intro res vis h
    simp only [dfsAux, dif_neg hnmem] at h
    split at h
    · simp_all
    · rename_i tc2 heq
      rw [hcot] at heq
      injection heq with heq2
      subst heq2
      rw [if_neg hemp] at h
      obtain ⟨h1, h2, h3⟩ := ih res vis h
      refine ⟨fun x hx => h1 x (List.mem_cons_of_mem n hx), ?_, h3⟩
      intro x hx
      rcases List.mem_cons.mp hx with hx1 | hx1
      · subst hx1; exact h1 x (List.mem_cons_self x visited)
      · exact h2 x (List.mem_append_right _ hx1)

/-- Closure property of the final visited set: every finally-visited node
either was visited from the start, or had its filtered children computed,
landed in the result if childless, and had all its filtered children
finally visited. -/
theorem dfsAux_closure (g : CollectraGraph) (f : String) :
    ∀ stack visited leaves : List String, ∀ res vis : List String,
      dfsAux g f stack visited leaves = .ok (res, vis) →
      ∀ v ∈ vis, v ∈ visited ∨ ∃ tc, g.children_of_type v f = .ok tc ∧
        (tc = [] → v ∈ res) ∧ (∀ c ∈ tc, c ∈ vis) := by
  intro stack visited leaves
  induction stack, visited, leaves using dfsAux.induct g f with
  | case1 visited leaves =>
    intro res vis h
    simp only [dfsAux] at h
    injection h with h2
    injection h2 with hl hv
    subst hl
    subst hv
    exact fun v hv => Or.inl hv
  | case2 n rest visited leaves hmem ih =>
    intro res vis h
    simp only [dfsAux, dif_pos hmem] at h
    exact ih res vis h
  | case3 n rest visited leaves hnmem e hcot =>
    intro res vis h
    simp only [dfsAux, dif_neg hnmem] at h
    split at h
    · cases h
    · simp_all
  | case4 n rest visited leaves hnmem tc hcot hemp ih =>
    intro res vis h
    simp only [dfsAux, dif_neg hnmem] at h
    split at h
    · simp_all
    · rename_i tc2 heq
      rw [hcot] at heq
      injection heq with heq2
      subst heq2
      rw [if_pos hemp] at h
      intro v hv
      rcases ih res vis h v hv with h1 | h1
      · rcases List.mem_cons.mp h1 with h2 | h2
        · subst h2
          refine Or.inr ⟨tc, hcot, ?_, ?_⟩
          · intro _
            exact (dfsAux_sub g f _ _ _ _ _ h).2.2 v (List.mem_append_right _ (by simp))
          · intro c hc
            rw [List.isEmpty_iff.mp hemp] at hc
            cases hc
        · exact Or.inl h2
      · exact Or.inr h1
  | case5 n rest visited leaves hnmem tc hcot hemp ih =>
    intro res vis h
    simp only [dfsAux, dif_neg hnmem] at h
    split at h
    · simp_all
    · rename_i tc2 heq
      rw [hcot] at heq
      injection heq with heq2
      subst heq2
      rw [if_neg hemp] at h
      intro v hv
      rcases ih res vis h v hv with h1 | h1
      · rcases List.mem_cons.mp h1 with h2 | h2
        · subst h2
          refine Or.inr ⟨tc, hcot, ?_, ?_⟩
          · intro htc
            rw [htc] at hemp
            simp at hemp
          · intro c hc
            exact (dfsAux_sub g f _ _ _ _ _ h).2.1 c
              (List.mem_append_left _ (List.mem_reverse.mpr hc))
        · exact Or.inl h2
      · exact Or.inr h1

/-- The DFS never records a leaf twice. -/
theorem dfsAux_nodup (g : CollectraGraph) (f : String) :
    ∀ stack visited leaves : List String, ∀ res vis : List String,
      dfsAux g f stack visited leaves = .ok (res, vis) →
      leaves.Nodup → (∀ x ∈ leaves, x ∈ visited) → res.Nodup := by
  intro stack visited leaves
  induction stack, visited, leaves using dfsAux.induct g f with
  | case1 visited leaves =>
    intro res vis h hnd _
    simp only [dfsAux] at h
    injection h with h2
    injection h2 with hl hv
    subst hl
    exact hnd
  | case2 n rest visited leaves hmem ih =>
    intro res vis h hnd hsub
    simp only [dfsAux, dif_pos hmem] at h
    exact ih res vis h hnd hsub
  | case3 n rest visited leaves hnmem e hcot =>
    intro res vis h _ _
    simp only [dfsAux, dif_neg hnmem] at h
    split at h
    · cases h
    · simp_all
  | case4 n rest visited leaves hnmem tc hcot hemp ih =>
    intro res vis h hnd hsub
    simp only [dfsAux, dif_neg hnmem] at h
    split at h
    · simp_all
    · rename_i tc2 heq
      rw [hcot] at heq
      injection heq with heq2
      subst heq2
      rw [if_pos hemp] at h
      refine ih res vis h ?_ ?_
      · rw [List.nodup_append]
        refine ⟨hnd, List.nodup_singleton n, ?_⟩
        intro x hx
        simp only [List.mem_singleton]
        intro hxe
        subst hxe
        exact hnmem (hsub x hx)
      · intro x hx
        rcases List.mem_append.mp hx with hx1 | hx1
        · exact List.mem_cons_of_mem n (hsub x hx1)
        · simp only [List.mem_singleton] at hx1
          subst hx1
          exact List.mem_cons_self x visited
  | case5 n rest visited leaves hnmem tc hcot hemp ih =>
    intro res vis h hnd hsub
    simp only [dfsAux, dif_neg hnmem] at h
    split at h
    · simp_all
    · rename_i tc2 heq
      rw [hcot] at heq
      injection heq with heq2
      subst heq2
      rw [if_neg hemp] at h
      exact ih res vis h hnd (fun x hx => List.mem_cons_of_mem n (hsub x hx))

/-- A DFS failure pinpoints a stack element that is not a graph node: with
closed edges, pushed children are always nodes, so only the original start
can be at fault. -/
theorem dfsAux_error (g : CollectraGraph) (f : String) (hclosed : g.EdgesClosed) :
    ∀ stack visited leaves : List String, ∀ e : Err,
      dfsAux g f stack visited leaves = .error e →
      ∃ x ∈ stack, x ∉ g.nodeKeys := by
  intro stack visited leaves
  induction stack, visited, leaves using dfsAux.induct g f with
  | case1 visited leaves =>
    intro e h
    simp only [dfsAux] at h
    cases h
  | case2 n rest visited leaves hmem ih =>
    intro e h
    simp only [dfsAux, dif_pos hmem] at h
    obtain ⟨x, hx, hxk⟩ := ih e h
    exact ⟨x, List.mem_cons_of_mem n hx, hxk⟩
  | case3 n rest visited leaves hnmem e0 hcot =>
    intro e h
    exact ⟨n, List.mem_cons_self n rest, children_of_type_error_not_mem hcot⟩
  | case4 n rest visited leaves hnmem tc hcot hemp ih =>
    intro e h
    simp only [dfsAux, dif_neg hnmem] at h
    split at h
    · simp_all
    · rename_i tc2 heq
      rw [hcot] at heq
      injection heq with heq2
      subst heq2
      rw [if_pos hemp] at h
      obtain ⟨x, hx, hxk⟩ := ih e h
      exact ⟨x, List.mem_cons_of_mem n hx, hxk⟩
  | case5 n rest visited leaves hnmem tc hcot hemp ih =>
    intro e h
    simp only [dfsAux, dif_neg hnmem] at h
    split at h
    · simp_all
    · rename_i tc2 heq
      rw [hcot] at heq
      injection heq with heq2
      subst heq2
      rw [if_neg hemp] at h
      obtain ⟨x, hx, hxk⟩ := ih e h
      rcases List.mem_append.mp hx with hx1 | hx1
      · exfalso
        apply hxk
        exact successorsList_mem_keys hclosed
          (children_of_type_ok_sub hcot x (List.mem_reverse.mp hx1))
      · exact ⟨x, List.mem_cons_of_mem n hx1, hxk⟩

/-- Every recorded leaf is a graph node (its filtered children were
successfully computed when it was recorded). -/
theorem dfsAux_res_keys (g : CollectraGraph) (f : String) :
    ∀ stack visited leaves : List String, ∀ res vis : List String,
      dfsAux g f stack visited leaves = .ok (res, vis) →
      (∀ x ∈ leaves, x ∈ g.nodeKeys) → ∀ x ∈ res, x ∈ g.nodeKeys := by
  intro stack visited leaves
  induction stack, visited, leaves using dfsAux.induct g f with
  | case1 visited leaves =>
    intro res vis h hl
    simp only [dfsAux] at h
    injection h with h2
    injection h2 with hle hv
    subst hle
    exact hl
  | case2 n rest visited leaves hmem ih =>
    intro res vis h hl
    simp only [dfsAux, dif_pos hmem] at h
    exact ih res vis h hl
  | case3 n rest visited leaves hnmem e hcot =>
    intro res vis h _
    simp only [dfsAux, dif_neg hnmem] at h
    split at h
    · cases h
    · simp_all
  | case4 n rest visited leaves hnmem tc hcot hemp ih =>
    intro res vis h hl
    simp only [dfsAux, dif_neg hnmem] at h
    split at h
    · simp_all
    · rename_i tc2 heq
      rw [hcot] at heq
      injection heq with heq2
      subst heq2
      rw [if_pos hemp] at h
      refine ih res vis h ?_
      intro x hx
      rcases List.mem_append.mp hx with hx1 | hx1
      · exact hl x hx1
      · simp only [List.mem_singleton] at hx1
        subst hx1
        exact children_of_type_ok_mem hcot
  | case5 n rest visited leaves hnmem tc hcot hemp ih =>
    intro res vis h hl
    simp only [dfsAux, dif_neg hnmem] at h
    split at h
    · simp_all
    · rename_i tc2 heq
      rw [hcot] at heq
      injection heq with heq2
      subst heq2
      rw [if_neg hemp] at h
      exact ih res vis h hl

/-- The defining equations of the DFS loop, one per branch, stated so that
concrete executions can be replayed by rewriting. -/
theorem dfsAux_nil (g : CollectraGraph) (f : String) (visited leaves : List String) :
    dfsAux g f [] visited leaves = .ok (leaves, visited) := by
  simp only [dfsAux]

theorem dfsAux_step_visited {g : CollectraGraph} {f n : String}
    {rest visited leaves : List String} (hnv : n ∈ visited) :
    dfsAux g f (n :: rest) visited leaves = dfsAux g f rest visited leaves := by
  simp only [dfsAux, dif_pos hnv]

theorem dfsAux_step_leaf {g : CollectraGraph} {f n : String}
    {rest visited leaves : List String} (hnv : n ∉ visited)
    (hc : g.children_of_type n f = .ok []) :
    dfsAux g f (n :: rest) visited leaves
      = dfsAux g f rest (n :: visited) (leaves ++ [n]) := by
  simp only [dfsAux, dif_neg hnv]
  split
  · rename_i e heq
    rw [hc] at heq
    cases heq
  · rename_i tc2 heq
    rw [hc] at heq
    injection heq with heq2
    subst heq2
    rfl

theorem dfsAux_step_push {g : CollectraGraph} {f n : String}
    {rest visited leaves tc : List String} (hnv : n ∉ visited)
    (hc : g.children_of_type n f = .ok tc) (hne : tc ≠ []) :
    dfsAux g f (n :: rest) visited leaves
      = dfsAux g f (tc.reverse ++ rest) (n :: visited) leaves := by
  simp only [dfsAux, dif_neg hnv]
  split
  · rename_i e heq
    rw [hc] at heq
    cases heq
  · rename_i tc2 heq
    rw [hc] at heq
    injection heq with heq2
    subst heq2
    rw [if_neg (by simpa using hne)]

end CollectraGraph

/-- Applying a payload transformer at key `i` transforms exactly the entry
that `find?` locates there. -/
theorem find?_update_fn (l : List (String × Option CollectraNode)) (i : String)
    (F : Option CollectraNode → Option CollectraNode) :
    (l.map (fun p => if p.1 = i then (p.1, F p.2) else p)).find? (fun p => p.1 = i)
      = (l.find? (fun p => p.1 = i)).map (fun p => (p.1, F p.2)) := by
  induction l with
  | nil => rfl
  | cons q qs ih =>
    by_cases hq : q.1 = i
    · simp [hq]
    · rw [List.map_cons, if_neg hq, List.find?_cons_of_neg, List.find?_cons_of_neg, ih]
      · simp [hq]
      · simp [hq]

theorem find?_update_fn_other (l : List (String × Option CollectraNode)) (i j : String)
    (F : Option CollectraNode → Option CollectraNode) (hij : j ≠ i) :
    (l.map (fun p => if p.1 = i then (p.1, F p.2) else p)).find? (fun p => p.1 = j)
      = l.find? (fun p => p.1 = j) := by
  induction l with
  | nil => rfl
  | cons q qs ih =>
    by_cases hqi : q.1 = i
    · have hqj : ¬ q.1 = j := by rw [hqi]; exact fun hc => hij hc.symm
      rw [List.map_cons, if_pos hqi, List.find?_cons_of_neg, List.find?_cons_of_neg]
      · exact ih
      · simpa using hqj
      · simpa [hqi] using fun hc : i = j => hij hc.symm
    · by_cases hqj : q.1 = j
      · rw [List.map_cons, if_neg hqi, List.find?_cons_of_pos, List.find?_cons_of_pos]
        · simpa using hqj
        · simpa using hqj
      · rw [List.map_cons, if_neg hqi, List.find?_cons_of_neg, List.find?_cons_of_neg]
        · exact ih
        · simpa using hqj
        · simpa using hqj

theorem find?_eq_of_mem_nodup (l : List (String × Option CollectraNode))
    (i : String) (hnd : (l.map Prod.fst).Nodup) (p : String × Option CollectraNode)
    (hp : p ∈ l) (hpi : p.1 = i) : l.find? (fun q => q.1 = i) = some p := by
  induction l with
  | nil => cases hp
  | cons q qs ih =>
    simp only [List.map_cons, List.nodup_cons] at hnd
    rcases List.mem_cons.mp hp with h1 | h1
    · subst h1
      exact List.find?_cons_of_pos qs (by simpa using hpi)
    · have hq : ¬ q.1 = i := by
        intro hc
        exact hnd.1 (hc ▸ hpi ▸ List.mem_map.mpr ⟨p, h1, rfl⟩)
      rw [List.find?_cons_of_neg, ih hnd.2 h1]
      simpa using hq

namespace CollectraGraph

theorem not_mem_realIds_of_payload_none {g : CollectraGraph} {i : String}
    (hwf : g.Wf) (h : g.payloadOf i = none) : i ∉ g.realIds := by
  intro hmem
  unfold realIds realNodes at hmem
  rcases List.mem_map.mp hmem with ⟨m, hm, hme⟩
  rcases List.mem_filterMap.mp hm with ⟨p, hp, hsnd⟩
  have hid := hwf.2.1 p hp
  rw [hsnd] at hid
  simp only [Option.map_some', Option.getD_some] at hid
  have hpi : p.1 = i := by rw [← hid, hme]
  have := find?_eq_of_mem_nodup g.nodes i hwf.1 p hp hpi
  unfold payloadOf at h
  rw [this] at h
  have h2 : p.2 = none := h
  rw [hsnd] at h2
  cases h2

/-- An unknown id resolves to the not-found display result. -/
theorem compute_not_found {g : CollectraGraph} {i : String}
    (h : g.payloadOf i = none) :
    g.compute_display_value i = .ok { reason := i ++ " Element not found" } := by
  unfold compute_display_value
  rw [h]

theorem payloadOf_update_of_some {g : CollectraGraph} {i : String} {n : CollectraNode}
    (F : Option CollectraNode → Option CollectraNode) (h : g.payloadOf i = some n) :
    CollectraGraph.payloadOf
      { g with nodes := g.nodes.map (fun p => if p.1 = i then (p.1, F p.2) else p) } i
      = F (some n) := by
  unfold payloadOf at h ⊢
  dsimp only
  rw [find?_update_fn g.nodes i F]
  cases hf : g.nodes.find? (fun p => p.1 = i) with
  | none => rw [hf] at h; cases h
  | some p =>
    rw [hf] at h
    have h2 : p.2 = some n := h
    simp [h2]

theorem payloadOf_update_other {g : CollectraGraph} {i j : String}
    (F : Option CollectraNode → Option CollectraNode) (hij : j ≠ i) :
    CollectraGraph.payloadOf
      { g with nodes := g.nodes.map (fun p => if p.1 = i then (p.1, F p.2) else p) } j
      = g.payloadOf j := by
  unfold payloadOf
  dsimp only
  rw [find?_update_fn_other g.nodes i j F hij]

theorem nodeKeys_update (g : CollectraGraph) (i : String)
    (F : Option CollectraNode → Option CollectraNode) :
    CollectraGraph.nodeKeys
      { g with nodes := g.nodes.map (fun p => if p.1 = i then (p.1, F p.2) else p) }
      = g.nodeKeys := by
  unfold nodeKeys
  dsimp only
  rw [List.map_map]
  have hfun : (Prod.fst ∘ fun p : String × Option CollectraNode =>
      if p.1 = i then (p.1, F p.2) else p) = Prod.fst := by
    funext q
    by_cases hc : q.1 = i <;> simp [hc]
  rw [hfun]

/-- C3 (amended): `add_node` with an id that already names a payload-bearing
node does not fail with a duplicate-id error; it silently replaces that
node's stored payload in place (every other payload is untouched), because
`networkx.DiGraph.add_node` updates attributes of existing nodes. -/
theorem C3_add_node_replaces (g : CollectraGraph) (bag : FieldBag)
    (n : CollectraNode)
    (hc : create_node bag (normalise_items bag.parentsKey) = .ok n)
    (hdup : n.id ∈ g.realIds) :
    ∃ g', g.add_node bag = .ok g' ∧ g'.payloadOf n.id = some n ∧
      ∀ j, j ≠ n.id → g'.payloadOf j = g.payloadOf j := by
  refine ⟨_, by unfold add_node; rw [hc], ?_, ?_⟩
  · rw [payloadOf_foldEdges, payloadOf_nxAddNode_self]
  · intro j hj
    rw [payloadOf_foldEdges, payloadOf_nxAddNode_other g n.id j n hj]

/-- C4 (amended): for a non-empty id, `set_data` fails with the not-found
error when the node is absent and otherwise updates exactly that node's
`data` field in place, adding no node and touching no edge.  (With an empty
id and a crop id the source instead materialises a brand-new Text node via
`add_node` — see the counterexample.) -/
theorem C4_set_data (g : CollectraGraph) (i d : String) (cropId : Option String)
    (fresh : String) (hne : i ≠ "") :
    (g.payloadOf i = none →
      g.set_data i d cropId fresh
        = .error (.valueError ("Node " ++ i ++ " not found in graph."))) ∧
    (∀ n, g.payloadOf i = some n →
      ∃ g', g.set_data i d cropId fresh = .ok g' ∧
        g'.payloadOf i = some { n with data := d } ∧
        (∀ j, j ≠ i → g'.payloadOf j = g.payloadOf j) ∧
        g'.nodeKeys = g.nodeKeys ∧ g'.edges = g.edges ∧ g'.metadata = g.metadata) := by
  constructor
  · intro h
    unfold set_data
    rw [if_pos hne, h]
  · intro n h
    refine ⟨{ g with nodes := g.nodes.map (fun p =>
        if p.1 = i then (p.1, p.2.map (fun m => { m with data := d })) else p) },
      ?_, ?_, ?_, ?_, rfl, rfl⟩
    · unfold set_data
      rw [if_pos hne, h]
    · exact payloadOf_update_of_some (Option.map (fun m => { m with data := d })) h
    · intro j hj
      exact payloadOf_update_other (Option.map (fun m => { m with data := d })) hj
    · exact nodeKeys_update g i (Option.map (fun m => { m with data := d }))

/-- C5 (amended): `set_crop_region` validates the region before anything
else, so a region missing any of the four fields fails with the pydantic
validation error even when the node is absent; an absent node and a
non-crop-bearing node then both fail with the same "is not an annotation
node" error (there is no separate not-found error); on success the crop
region is replaced wholesale and nothing else changes. -/
theorem C5_set_crop_region (g : CollectraGraph) (i : String) (r : RegionBag) :
    ((r.xCenterKey.isNone ∨ r.yCenterKey.isNone ∨ r.widthKey.isNone ∨
        r.heightKey.isNone) →
      g.set_crop_region i r = .error (.validationError "crop region: Field required")) ∧
    (∀ x y w h, r.xCenterKey = some x → r.yCenterKey = some y →
      r.widthKey = some w → r.heightKey = some h →
      ((g.payloadOf i = none →
        g.set_crop_region i r
          = .error (.valueError ("Node " ++ i ++ " is not an annotation node."))) ∧
      (∀ n, g.payloadOf i = some n → n.crop? = none →
        g.set_crop_region i r
          = .error (.valueError ("Node " ++ i ++ " is not an annotation node."))) ∧
      (∀ n c, g.payloadOf i = some n → n.crop? = some c →
        ∃ g', g.set_crop_region i r = .ok g' ∧
          g'.payloadOf i = some { n with crop? := some ⟨x, y, w, h⟩ } ∧
          (∀ j, j ≠ i → g'.payloadOf j = g.payloadOf j) ∧
          g'.nodeKeys = g.nodeKeys ∧ g'.edges = g.edges))) := by
  constructor
  · intro hmiss
    unfold set_crop_region
    rcases hmiss with hm | hm | hm | hm <;> rw [Option.isNone_iff_eq_none] at hm <;>
      rw [hm] <;>
      (cases hA : r.xCenterKey <;> cases hB : r.yCenterKey <;>
        cases hC : r.widthKey <;> cases hD : r.heightKey <;> simp_all)
  · intro x y w h hx hy hw hh
    refine ⟨?_, ?_, ?_⟩
    · intro hnone
      unfold set_crop_region
      rw [hx, hy, hw, hh, hnone]
    · intro n hsome hcrop
      unfold set_crop_region
      rw [hx, hy, hw, hh, hsome]
      have hcs : n.crop?.isSome = false := by rw [hcrop]; rfl
      simp [hcs]
    · intro n c hsome hcrop
      have hcs : n.crop?.isSome = true := by rw [hcrop]; rfl
      refine ⟨{ g with nodes := g.nodes.map (fun p =>
          if p.1 = i then (p.1, p.2.map (fun m => { m with crop? := some ⟨x, y, w, h⟩ })) else p) },
        ?_, ?_, ?_, ?_, rfl⟩
      · unfold set_crop_region
        rw [hx, hy, hw, hh, hsome]
        simp [hcs]
      · exact payloadOf_update_of_some
          (Option.map (fun m => { m with crop? := some ⟨x, y, w, h⟩ })) hsome
      · intro j hj
        exact payloadOf_update_other
          (Option.map (fun m => { m with crop? := some ⟨x, y, w, h⟩ })) hj
      · exact nodeKeys_update g i
          (Option.map (fun m => { m with crop? := some ⟨x, y, w, h⟩ }))

/-- C6: `children` and `parents` raise the `networkx` "not in the digraph"
error for every id the graph has never seen (they never silently return an
empty list there), and for known ids return the adjacent ids in
edge-insertion order. -/
theorem C6_children_parents (g : CollectraGraph) (i : String) :
    (i ∉ g.nodeKeys →
      g.children i
        = .error (.networkxError ("The node " ++ i ++ " is not in the digraph.")) ∧
      g.parentsQ i
        = .error (.networkxError ("The node " ++ i ++ " is not in the digraph."))) ∧
    (i ∈ g.nodeKeys →
      g.children i = .ok (g.successorsList i) ∧
      g.parentsQ i = .ok (g.predecessorsList i)) := by
  constructor
  · intro h
    unfold children parentsQ
    rw [if_neg h, if_neg h]
    exact ⟨rfl, rfl⟩
  · intro h
    unfold children parentsQ
    rw [if_pos h, if_pos h]
    exact ⟨rfl, rfl⟩

/-- C9: the display resolver is pure — threading the graph through the call
returns it unchanged (so every node's id, type, label, data, parents and
crop region and the whole edge relation are as before), and resolving the
same id twice in a row yields the same display result. -/
theorem C9_compute_display_value_pure (g : CollectraGraph) (i : String) :
    (g.compute_display_valueSt i).1 = g ∧
    ((g.compute_display_valueSt i).1.compute_display_valueSt i).2
      = (g.compute_display_valueSt i).2 :=
  ⟨rfl, rfl⟩

/-- C10: adding a node whose `parents` mention an id `P` never added as a
node makes `P` a graph node with an edge to the new node — `children(P)`
succeeds and lists the new id — yet `P` carries no payload: `get_type`
returns the empty string, `compute_display_value` reports not-found, and the
serializer silently omits `P`. -/
theorem C10_phantom_parent (g : CollectraGraph) (bag : FieldBag)
    (n : CollectraNode) (P : String) (hwf : g.Wf)
    (hc : create_node bag (normalise_items bag.parentsKey) = .ok n)
    (hP : P ∈ normalise_items bag.parentsKey)
    (hPnew : P ∉ g.nodeKeys) (hPid : P ≠ n.id) :
    ∃ g', g.add_node bag = .ok g' ∧
      P ∈ g'.nodeKeys ∧
      (∃ l, g'.children P = .ok l ∧ n.id ∈ l) ∧
      g'.get_type P = "" ∧
      g'.compute_display_value P = .ok { reason := P ++ " Element not found" } ∧
      P ∉ exportIds g'.to_yaml_data := by
  refine ⟨_, by unfold add_node; rw [hc], ?_, ?_, ?_, ?_, ?_⟩
  · exact mem_keys_foldEdges _ n.id _ P hP
  · exact ⟨_, by unfold children; rw [if_pos (mem_keys_foldEdges _ n.id _ P hP)],
      mem_successorsList (mem_edges_foldEdges _ n.id _ P hP)⟩
  · unfold get_type
    rw [payloadOf_foldEdges, payloadOf_nxAddNode_other g n.id P n hPid,
      payloadOf_eq_none_of_not_mem g P hPnew]
  · exact compute_not_found (by
      rw [payloadOf_foldEdges, payloadOf_nxAddNode_other g n.id P n hPid,
        payloadOf_eq_none_of_not_mem g P hPnew])
  · set g' := (normalise_items bag.parentsKey).foldl
      (fun gg p => nxAddEdge gg p n.id) (g.nxAddNode n.id n) with hg'
    have hwf' : g'.Wf := wf_foldEdges _ (wf_nxAddNode n hwf)
    have hpay : g'.payloadOf P = none := by
      rw [hg', payloadOf_foldEdges, payloadOf_nxAddNode_other g n.id P n hPid,
        payloadOf_eq_none_of_not_mem g P hPnew]
    have hnot := not_mem_realIds_of_payload_none hwf' hpay
    intro hmem
    apply hnot
    have hperm := (exportTuples_to_yaml g').map (fun t => t.1)
    unfold exportIds at hmem
    have := hperm.mem_iff.mp hmem
    rw [List.map_map] at this
    unfold realIds
    have hcomp : ((fun t : String × String × String × List String => t.1) ∘ nodeTuple)
        = CollectraNode.id := by
      funext m
      rfl
    rw [hcomp] at this
    exact this

/-- C7 (amended): starting from a node of an edges-closed graph, when the
type-filtered child relation admits a strictly decreasing rank (in
particular whenever the filtered subgraph is acyclic, for instance a chain
of Text corrections), `dfs_leaves` succeeds with a non-empty list of graph
nodes, and `find_deepest` therefore returns a graph node rather than the
empty-string sentinel.  The sentinel is reachable for a *present* start when
the filtered subgraph contains a cycle (see the counterexample), while an
*unknown* start makes the traversal raise instead of returning the
sentinel. -/
theorem C7_dfs_leaves_nonempty (g : CollectraGraph) (f start : String)
    (rank : String → Nat) (hclosed : g.EdgesClosed) (hstart : start ∈ g.nodeKeys)
    (hrank : ∀ a b, ChildStep g f a b → rank b < rank a) :
    ∃ l, g.dfs_leaves start f = .ok l ∧ l ≠ [] ∧ (∀ x ∈ l, x ∈ g.nodeKeys) ∧
      ∃ d, g.find_deepest start f = .ok d ∧ d ∈ l := by
  cases haux : dfsAux g f [start] [] [] with
  | error e =>
    exfalso
    obtain ⟨x, hx, hxk⟩ := dfsAux_error g f hclosed [start] [] [] e haux
    simp only [List.mem_singleton] at hx
    subst hx
    exact hxk hstart
  | ok r =>
    obtain ⟨res, vis⟩ := r
    have hne : res ≠ [] := by
      intro hres
      subst hres
      have hsv : start ∈ vis :=
        (dfsAux_sub g f [start] [] [] [] vis haux).2.1 start (by simp)
      have hclo := dfsAux_closure g f [start] [] [] [] vis haux
      obtain ⟨v, hv, hmin⟩ := Finset.exists_min_image vis.toFinset rank
        ⟨start, List.mem_toFinset.mpr hsv⟩
      rcases hclo v (List.mem_toFinset.mp hv) with h1 | h1
      · cases h1
      · obtain ⟨tc, hok, himp, hsub⟩ := h1
        cases htc : tc with
        | nil =>
          subst htc
          cases himp rfl
        | cons c cs =>
          subst htc
          have hcv : c ∈ vis := hsub c (List.mem_cons_self c cs)
          have hstep : ChildStep g f v c := ⟨c :: cs, hok, List.mem_cons_self c cs⟩
          have h2 := hrank v c hstep
          have h3 := hmin c (List.mem_toFinset.mpr hcv)
          omega
    have hkeys : ∀ x ∈ res, x ∈ g.nodeKeys :=
      dfsAux_res_keys g f [start] [] [] res vis haux (by simp)
    have hdfs : g.dfs_leaves start f = .ok res := by
      unfold dfs_leaves
      rw [haux]
      rfl
    refine ⟨res, hdfs, hne, hkeys, res.headD "", ?_, ?_⟩
    · unfold find_deepest
      rw [hdfs]
      rfl
    · cases res with
      | nil => exact absurd rfl hne
      | cons a as => exact List.mem_cons_self a as

/-- C8: the DFS is cycle-safe — it is a total function (it is accepted by
the termination checker for *every* finite graph, cyclic filtered edges
included), and a node is appended to the returned leaf list at most once:
the result never contains duplicates. -/
theorem C8_dfs_leaves_nodup (g : CollectraGraph) (start f : String)
    (l : List String) (h : g.dfs_leaves start f = .ok l) : l.Nodup := by
  unfold dfs_leaves at h
  cases haux : dfsAux g f [start] [] [] with
  | error e =>
    rw [haux] at h
    cases h
  | ok r =>
    obtain ⟨res, vis⟩ := r
    rw [haux] at h
    have h2 : res = l := by
      have h3 : (Except.ok res : Except Err (List String)) = Except.ok l := h
      injection h3
    subst h2
    exact dfsAux_nodup g f [start] [] [] res vis haux (by simp) (by simp)

/-- C2 (amended): for an ImageCrop node with no ImageCrop child and at least
one Text child, *provided the first Text child has a non-empty id* (an
empty-id first child is treated as "no Text child" by the falsy-string test
— see the counterexample) and the Text-filtered chain from it yields a
terminal node, the resolver returns that terminal node's `data` as the
value, its id as `source_id`, the node's crop region, and `locked = false`. -/
theorem C2_leaf_crop_text (g : CollectraGraph) (i : String) (n : CollectraNode)
    (cr : CollectraCropRegion) (t : String) (ts : List String) (d : String)
    (hnode : g.payloadOf i = some n)
    (hic : strContains n.type "ImageCrop" = true)
    (hcrop : n.crop? = some cr)
    (hnoIC : g.children_of_type i "ImageCrop" = .ok [])
    (htext : g.children_of_type i "Text" = .ok (t :: ts))
    (ht : t ≠ "")
    (hdeep : g.find_deepest t "Text" = .ok d)
    (hd : d ≠ "") :
    g.compute_display_value i
      = .ok { value := some (g.get_data d), source_id := some d,
              crop_region := some cr,
              reason := "Leaf crop " ++ i ++ " with Text child: deepest Text is " ++ d,
              locked := false } := by
  have hty : g.get_type i = n.type := by
    unfold get_type
    rw [hnode]
  have hcropr : g.get_crop_region i = .ok cr := by
    unfold get_crop_region
    rw [hnode]
    simp [hcrop]
  unfold compute_display_value
  rw [hnode]
  simp only [hty, hic, Bool.not_true, Bool.and_false, Bool.false_eq_true, if_false,
    if_true, hcropr, hnoIC, htext]
  simp [ht, hd]
  rw [hdeep]
  simp [hd]

/-- C1 (amended): for an import document whose id-bearing items carry
pairwise-distinct ids, serializing the graph built from the document
reproduces the multiset of `(id, type, data, parents)` node tuples of the
document (parents compared in normalised list form, single-item groups
collapsing to a bare object, metadata re-attached under its fixed key).
Duplicate ids break the law because the second `add_node` silently replaces
the first node — see the counterexample. -/
theorem C1_roundtrip (doc : ImportDoc) (g : CollectraGraph)
    (hids : (docIds doc).Nodup)
    (hok : CollectraGraph.from_yaml_data doc = .ok g) :
    (exportTuples g.to_yaml_data).Perm (docTuples doc) :=
  (exportTuples_to_yaml g).trans (from_yaml_tuples hok hids).2

/-- Shared evaluation: on the cyclic Text chain the DFS from `t1` terminates
with an empty leaf list. -/
theorem cycG_dfs_eval : cycG.dfs_leaves "t1" "Text" = .ok [] := by
  have h1 : cycG.children_of_type "t1" "Text" = .ok ["t2"] := rfl
  have h2 : cycG.children_of_type "t2" "Text" = .ok ["t1"] := rfl
  unfold dfs_leaves
  rw [dfsAux_step_push (by decide) h1 (by decide)]
  simp only [List.reverse_cons, List.reverse_nil, List.nil_append, List.append_nil,
    List.cons_append]
  rw [dfsAux_step_push (by decide) h2 (by decide)]
  simp only [List.reverse_cons, List.reverse_nil, List.nil_append, List.append_nil,
    List.cons_append]
  rw [dfsAux_step_visited (by decide), dfsAux_nil]
  rfl

/-- Shared evaluation: on the two-step chain the DFS from `t1` finds the
terminal correction `t2`. -/
theorem c2wG_find_deepest_eval : c2wG.find_deepest "t1" "Text" = .ok "t2" := by
  have h1 : c2wG.children_of_type "t1" "Text" = .ok ["t2"] := rfl
  have h2 : c2wG.children_of_type "t2" "Text" = .ok [] := rfl
  have hdfs : c2wG.dfs_leaves "t1" "Text" = .ok ["t2"] := by
    unfold dfs_leaves
    rw [dfsAux_step_push (by decide) h1 (by decide)]
    simp only [List.reverse_cons, List.reverse_nil, List.nil_append, List.append_nil,
      List.cons_append]
    rw [dfsAux_step_leaf (by decide) h2]
    rw [dfsAux_nil]
    rfl
  unfold find_deepest
  rw [hdfs]
  rfl

/-- C1, counterexample: with two items sharing id `a`, the round trip loses
a tuple — the second `add_node` silently replaces the first — so the
multiset of `(id, type, data, parents)` tuples is not reproduced. -/
theorem C1_counterexample :
    CollectraGraph.from_yaml_data c1dupDoc = .ok c1dupG ∧
    (docTuples c1dupDoc).length = 2 ∧
    (exportTuples c1dupG.to_yaml_data).length = 1 ∧
    ¬ (exportTuples c1dupG.to_yaml_data).Perm (docTuples c1dupDoc) :=
  ⟨rfl, rfl, rfl, fun hp => absurd hp.length_eq (by decide)⟩

/-- C1, witness instantiation of the round-trip law on a document with
distinct ids, both parent spellings, a collapsing single-item group and a
metadata record. -/
theorem C1_witness :
    (docIds c1okDoc).Nodup ∧
    (exportTuples (getOk (CollectraGraph.from_yaml_data c1okDoc)).to_yaml_data).Perm
      (docTuples c1okDoc) :=
  ⟨by decide, C1_roundtrip c1okDoc _ (by decide) rfl⟩

/-- C2, counterexample: the crop `c` has exactly one Text child, whose id is
the empty string; the claim predicts `value = data(terminal) = "hello"`,
but the falsy-string test sends the resolver to the no-Text-child rule and
it returns the empty value instead. -/
theorem C2_counterexample :
    c2badG.children_of_type "c" "ImageCrop" = .ok [] ∧
    c2badG.children_of_type "c" "Text" = .ok [""] ∧
    c2badG.get_data "" = "hello" ∧
    c2badG.compute_display_value "c"
      = .ok { value := some "", source_id := some "",
              crop_region := some ⟨1, 1, 1, 1⟩,
              reason := "Leaf crop c without Text child", locked := false } := by
  refine ⟨rfl, rfl, rfl, rfl⟩

/-- C2, witness instantiation on the two-step correction chain: the resolver
surfaces the terminal node `t2` and its data. -/
theorem C2_witness :
    c2wG.compute_display_value "crop"
      = .ok { value := some (c2wG.get_data "t2"), source_id := some "t2",
              crop_region := some ⟨1, 1, 1, 1⟩,
              reason := "Leaf crop " ++ "crop" ++ " with Text child: deepest Text is " ++ "t2",
              locked := false } :=
  C2_leaf_crop_text c2wG "crop" _ _ "t1" [] "t2" rfl (by decide) rfl rfl rfl
    (by decide) c2wG_find_deepest_eval (by decide)

/-- C3, counterexample: re-adding id `a` does not fail with a duplicate-id
error and does not leave the graph unchanged — the stored data flips from
`1` to `2`. -/
theorem C3_counterexample :
    "a" ∈ c3g1.realIds ∧
    c3g1.get_data "a" = "1" ∧
    c3g1.add_node c3bagB = .ok { nodes := [("a", some c3nodeB)] } ∧
    (getOk (c3g1.add_node c3bagB)).get_data "a" = "2" := by
  refine ⟨by decide, rfl, rfl, rfl⟩

/-- C3, witness instantiation of the amended replacement behaviour. -/
theorem C3_witness :
    "a" ∈ c3g1.realIds ∧
    (getOk (c3g1.add_node c3bagB)).payloadOf "a"
      = some { id := "a", type := "T", data := "2", label := "L", parents := [] } := by
  obtain ⟨g', hok, hpay, _⟩ := C3_add_node_replaces c3g1 c3bagB _ rfl (by decide)
  refine ⟨by decide, ?_⟩
  rw [hok]
  exact hpay

/-- C4, counterexample: with a falsy id and a crop id, `set_data` does
create a brand-new Text node (with a generated id) in the graph, contrary
to "in no case does setData create a new node". -/
theorem C4_counterexample :
    CollectraGraph.set_data {} "" "hello" (some "crop_7") "abcd1234"
      = .ok { nodes := [("user_text_abcd1234", some c4genNode), ("crop_7", none)],
              edges := [("crop_7", "user_text_abcd1234")] } ∧
    (getOk (CollectraGraph.set_data {} "" "hello" (some "crop_7") "abcd1234")).realIds
      = ["user_text_abcd1234"] := by
  refine ⟨rfl, rfl⟩

/-- C4, witness instantiation of the amended in-place update behaviour. -/
theorem C4_witness :
    c3g1.payloadOf "a"
      = some { id := "a", type := "T", data := "1", label := "L", parents := [] } ∧
    (getOk (c3g1.set_data "a" "new" none "x")).payloadOf "a"
      = some { id := "a", type := "T", data := "new", label := "L", parents := [] } := by
  obtain ⟨_, h2⟩ := C4_set_data c3g1 "a" "new" none "x" (by decide)
  obtain ⟨g', hok, hpay, _⟩ := h2 _ rfl
  refine ⟨rfl, ?_⟩
  rw [hok]
  exact hpay

/-- C5, counterexample: for an id absent from the graph, `set_crop_region`
with a complete region raises the "is not an annotation node" error — the
same error a non-crop node gets — rather than a distinct not-found error;
with an incomplete region it raises the validation error even though the
node is absent. -/
theorem C5_counterexample :
    CollectraGraph.set_crop_region {} "x"
      { xCenterKey := some 1, yCenterKey := some 2, widthKey := some 3,
        heightKey := some 4 }
      = .error (.valueError "Node x is not an annotation node.") ∧
    CollectraGraph.set_crop_region {} "x" { xCenterKey := some 1 }
      = .error (.validationError "crop region: Field required") := by
  refine ⟨rfl, rfl⟩

/-- C5, witness instantiation of the amended wholesale replacement. -/
theorem C5_witness :
    (getOk (c5g.set_crop_region "crop1"
        { xCenterKey := some 9, yCenterKey := some 8, widthKey := some 7,
          heightKey := some 6 })).payloadOf "crop1"
      = some { id := "crop1", type := "collectra.ImageCrop", data := "",
               label := "crop", parents := [], crop? := some ⟨9, 8, 7, 6⟩ } := by
  obtain ⟨_, h2⟩ := C5_set_crop_region c5g "crop1"
    { xCenterKey := some 9, yCenterKey := some 8, widthKey := some 7,
      heightKey := some 6 }
  obtain ⟨_, _, h3⟩ := h2 9 8 7 6 rfl rfl rfl rfl
  obtain ⟨g', hok, hpay, _⟩ := h3 _ _ rfl rfl
  rw [hok]
  exact hpay

/-- C6, witness instantiation: an unknown id raises on both queries while a
known id returns its insertion-ordered children. -/
theorem C6_witness :
    "nope" ∉ c2wG.nodeKeys ∧
    c2wG.children "nope"
      = .error (.networkxError ("The node " ++ "nope" ++ " is not in the digraph.")) ∧
    c2wG.parentsQ "nope"
      = .error (.networkxError ("The node " ++ "nope" ++ " is not in the digraph.")) ∧
    c2wG.children "crop" = .ok ["t1"] := by
  have h1 := (C6_children_parents c2wG "nope").1 (by decide)
  have h2 := (C6_children_parents c2wG "crop").2 (by decide)
  refine ⟨by decide, h1.1, h1.2, ?_⟩
  rw [h2.1]
  rfl

/-- C7, counterexample: `t1` is present in the graph, yet because its
Text-filtered subgraph is cyclic the DFS returns no leaves and
`find_deepest` returns the empty-string "none" sentinel. -/
theorem C7_counterexample :
    "t1" ∈ cycG.nodeKeys ∧
    cycG.dfs_leaves "t1" "Text" = .ok [] ∧
    cycG.find_deepest "t1" "Text" = .ok "" := by
  refine ⟨by decide, cycG_dfs_eval, ?_⟩
  unfold find_deepest
  rw [cycG_dfs_eval]
  rfl

/-- C7, witness instantiation on the acyclic correction chain with an
explicit decreasing rank. -/
theorem C7_witness :
    ∃ l, c2wG.dfs_leaves "t1" "Text" = .ok l ∧ l ≠ [] ∧
      (∀ x ∈ l, x ∈ c2wG.nodeKeys) ∧
      ∃ d, c2wG.find_deepest "t1" "Text" = .ok d ∧ d ∈ l := by
  refine C7_dfs_leaves_nonempty c2wG "Text" "t1"
    (fun s => if s = "crop" then 3 else if s = "t1" then 2 else if s = "t2" then 1 else 0)
    (by decide) (by decide) ?_
  intro a b hstep
  obtain ⟨tc, hok, hb⟩ := hstep
  have hmem := children_of_type_ok_mem hok
  have hkeys : c2wG.nodeKeys = ["crop", "t1", "t2"] := rfl
  rw [hkeys] at hmem
  simp only [List.mem_cons, List.not_mem_nil, or_false] at hmem
  rcases hmem with ha | ha | ha <;> subst ha
  · have hc : c2wG.children_of_type "crop" "Text" = .ok ["t1"] := rfl
    rw [hc] at hok
    injection hok with he
    subst he
    simp only [List.mem_singleton] at hb
    subst hb
    decide
  · have hc : c2wG.children_of_type "t1" "Text" = .ok ["t2"] := rfl
    rw [hc] at hok
    injection hok with he
    subst he
    simp only [List.mem_singleton] at hb
    subst hb
    decide
  · have hc : c2wG.children_of_type "t2" "Text" = .ok [] := rfl
    rw [hc] at hok
    injection hok with he
    subst he
    cases hb

/-- C8, witness instantiation: on the cyclic graph the DFS still terminates
with a duplicate-free (here empty) leaf list. -/
theorem C8_witness :
    cycG.dfs_leaves "t1" "Text" = .ok [] ∧ ([] : List String).Nodup :=
  ⟨cycG_dfs_eval, C8_dfs_leaves_nodup cycG "t1" "Text" [] cycG_dfs_eval⟩

/-- C10, witness instantiation: adding `kid` with unseen parent `P`. -/
theorem C10_witness :
    ∃ g', CollectraGraph.add_node {} c10bag = .ok g' ∧
      "P" ∈ g'.nodeKeys ∧
      (∃ l, g'.children "P" = .ok l ∧ "kid" ∈ l) ∧
      g'.get_type "P" = "" ∧
      g'.compute_display_value "P" = .ok { reason := "P" ++ " Element not found" } ∧
      "P" ∉ exportIds g'.to_yaml_data :=
  C10_phantom_parent {} c10bag _ "P" (by decide) rfl (by decide) (by decide) (by decide)

end CollectraGraph
